import Mathlib

/-!
Verification of the ansi-control-codes control-function codec: the value
model (`ControlFunction`), the encoder (`render`, from `impl Display for
ControlFunction`), the private-use validator (`ControlFunction.private_use`),
the string-comparison adapter (`cfEqStr`, from `impl PartialEq<T> for
ControlFunction`), and the decoder (`TokenStream.next` / `decode`, from
`parser.rs`).

Strings are modelled as `List Char`; the Rust scanner works at UTF-8
character-boundary granularity, so byte positions in the source correspond
one-to-one to character indices here.  Where the Rust code inspects byte
lengths (`as_bytes().len()`), the model computes the UTF-8 byte length of
the characters (`byteLen`).
-/

namespace AnsiControlCodes

/-- Strings as lists of unicode scalar values. -/
abbrev Str := List Char

/-- Character from its code point, mirroring the `ascii!` macro's byte values. -/
def chr (n : Nat) : Char := Char.ofNat n

/-- The ESCAPE character, bit combination 01/11. -/
def escChar : Char := chr 0x1B

/-- UTF-8 encoded length of one character. -/
def utf8Len (c : Char) : Nat :=
  if c.toNat < 0x80 then 1
  else if c.toNat < 0x800 then 2
  else if c.toNat < 0x10000 then 3
  else 4

/-- UTF-8 byte length of a string (`str::len` / `as_bytes().len()` in the source). -/
def byteLen (s : Str) : Nat := (s.map utf8Len).sum

/-- Rust `str::is_ascii`: every scalar value is below 128. -/
def strIsAscii (s : Str) : Bool := s.all fun ch => decide (ch.toNat < 128)

/-- The four control function types of `enum ControlFunctionType` in lib.rs. -/
inductive ControlFunctionType where
  | C0
  | C1
  | ControlSequence
  | IndependentControlFunction
deriving DecidableEq, Repr

/-- Rust `struct ControlFunction` of lib.rs: type tag, identifying byte string, parameters. -/
structure ControlFunction where
  function_type : ControlFunctionType
  value : Str
  parameters : List Str
deriving DecidableEq, Repr

/-- Rust `ControlFunction::new_c0`. -/
def ControlFunction.new_c0 (value : Str) : ControlFunction :=
  ⟨ControlFunctionType.C0, value, []⟩

/-- Rust `ControlFunction::new_c1`. -/
def ControlFunction.new_c1 (value : Str) : ControlFunction :=
  ⟨ControlFunctionType.C1, value, []⟩

/-- Rust `ControlFunction::new_sequence`. -/
def ControlFunction.new_sequence (value : Str) (parameters : List Str) : ControlFunction :=
  ⟨ControlFunctionType.ControlSequence, value, parameters⟩

/-- Rust `ControlFunction::new_independent_control_function`. -/
def ControlFunction.new_independent_control_function (value : Str) : ControlFunction :=
  ⟨ControlFunctionType.IndependentControlFunction, value, []⟩

/- C0 constants from c0.rs (each `c0!(xx/yy)` is the byte 16*xx+yy). -/

def ACK : ControlFunction := ControlFunction.new_c0 [chr 0x06]

def BEL : ControlFunction := ControlFunction.new_c0 [chr 0x07]

def BS : ControlFunction := ControlFunction.new_c0 [chr 0x08]

def CAN : ControlFunction := ControlFunction.new_c0 [chr 0x18]

def CR : ControlFunction := ControlFunction.new_c0 [chr 0x0D]

def DC1 : ControlFunction := ControlFunction.new_c0 [chr 0x11]

def DC2 : ControlFunction := ControlFunction.new_c0 [chr 0x12]

def DC3 : ControlFunction := ControlFunction.new_c0 [chr 0x13]

def DC4 : ControlFunction := ControlFunction.new_c0 [chr 0x14]

def DLE : ControlFunction := ControlFunction.new_c0 [chr 0x10]

def EM : ControlFunction := ControlFunction.new_c0 [chr 0x19]

def ENQ : ControlFunction := ControlFunction.new_c0 [chr 0x05]

def EOT : ControlFunction := ControlFunction.new_c0 [chr 0x04]

def ESC : ControlFunction := ControlFunction.new_c0 [chr 0x1B]

def ETB : ControlFunction := ControlFunction.new_c0 [chr 0x17]

def ETX : ControlFunction := ControlFunction.new_c0 [chr 0x03]

def FF : ControlFunction := ControlFunction.new_c0 [chr 0x0C]

def HT : ControlFunction := ControlFunction.new_c0 [chr 0x09]

def IS1 : ControlFunction := ControlFunction.new_c0 [chr 0x1F]

def IS2 : ControlFunction := ControlFunction.new_c0 [chr 0x1E]

def IS3 : ControlFunction := ControlFunction.new_c0 [chr 0x1D]

def IS4 : ControlFunction := ControlFunction.new_c0 [chr 0x1C]

def LF : ControlFunction := ControlFunction.new_c0 [chr 0x0A]

def LS0 : ControlFunction := ControlFunction.new_c0 [chr 0x0F]

def LS1 : ControlFunction := ControlFunction.new_c0 [chr 0x0E]

def NAK : ControlFunction := ControlFunction.new_c0 [chr 0x15]

def NUL : ControlFunction := ControlFunction.new_c0 [chr 0x00]

def SI : ControlFunction := ControlFunction.new_c0 [chr 0x0F]

def SO : ControlFunction := ControlFunction.new_c0 [chr 0x0E]

def SOH : ControlFunction := ControlFunction.new_c0 [chr 0x01]

def STX : ControlFunction := ControlFunction.new_c0 [chr 0x02]

def SUB : ControlFunction := ControlFunction.new_c0 [chr 0x1A]

def SYN : ControlFunction := ControlFunction.new_c0 [chr 0x16]

def VT : ControlFunction := ControlFunction.new_c0 [chr 0x0B]

/- C1 constants from c1.rs. -/

def APC : ControlFunction := ControlFunction.new_c1 [chr 0x5F]

def BPH : ControlFunction := ControlFunction.new_c1 [chr 0x42]

def CCH : ControlFunction := ControlFunction.new_c1 [chr 0x54]

def CSI : ControlFunction := ControlFunction.new_c1 [chr 0x5B]

def DCS : ControlFunction := ControlFunction.new_c1 [chr 0x50]

def EPA : ControlFunction := ControlFunction.new_c1 [chr 0x57]

def ESA : ControlFunction := ControlFunction.new_c1 [chr 0x47]

def HTJ : ControlFunction := ControlFunction.new_c1 [chr 0x49]

def HTS : ControlFunction := ControlFunction.new_c1 [chr 0x48]

def MW : ControlFunction := ControlFunction.new_c1 [chr 0x55]

def NBH : ControlFunction := ControlFunction.new_c1 [chr 0x43]

def NEL : ControlFunction := ControlFunction.new_c1 [chr 0x45]

def OSC : ControlFunction := ControlFunction.new_c1 [chr 0x5D]

def PLD : ControlFunction := ControlFunction.new_c1 [chr 0x4B]

def PLU : ControlFunction := ControlFunction.new_c1 [chr 0x4C]

def PM : ControlFunction := ControlFunction.new_c1 [chr 0x5E]

def PU1 : ControlFunction := ControlFunction.new_c1 [chr 0x51]

def PU2 : ControlFunction := ControlFunction.new_c1 [chr 0x52]

def RI : ControlFunction := ControlFunction.new_c1 [chr 0x4D]

def SCI : ControlFunction := ControlFunction.new_c1 [chr 0x5A]

def SOS : ControlFunction := ControlFunction.new_c1 [chr 0x58]

def SPA : ControlFunction := ControlFunction.new_c1 [chr 0x56]

def SS2 : ControlFunction := ControlFunction.new_c1 [chr 0x4E]

def SS3 : ControlFunction := ControlFunction.new_c1 [chr 0x4F]

def SSA : ControlFunction := ControlFunction.new_c1 [chr 0x46]

def ST : ControlFunction := ControlFunction.new_c1 [chr 0x5C]

def STS : ControlFunction := ControlFunction.new_c1 [chr 0x53]

def VTS : ControlFunction := ControlFunction.new_c1 [chr 0x4A]

/- Independent control functions from independent_control_functions.rs. -/

def CMD : ControlFunction := ControlFunction.new_independent_control_function [chr 0x64]

def DMI : ControlFunction := ControlFunction.new_independent_control_function [chr 0x60]

def EMI : ControlFunction := ControlFunction.new_independent_control_function [chr 0x62]

def INT : ControlFunction := ControlFunction.new_independent_control_function [chr 0x61]

def LS1R : ControlFunction := ControlFunction.new_independent_control_function [chr 0x7E]

def LS2 : ControlFunction := ControlFunction.new_independent_control_function [chr 0x6E]

def LS2R : ControlFunction := ControlFunction.new_independent_control_function [chr 0x7D]

def LS3 : ControlFunction := ControlFunction.new_independent_control_function [chr 0x6F]

def LS3R : ControlFunction := ControlFunction.new_independent_control_function [chr 0x7C]

def RIS : ControlFunction := ControlFunction.new_independent_control_function [chr 0x63]

/-- Rust `Vec::join(";")`: parameter list joined with the 03/11 separator. -/
def joinSemi : List Str → Str
  | [] => []
  | [p] => p
  | p :: ps => p ++ chr 0x3B :: joinSemi ps

/-- Rust `ControlFunction::format_parameters`: `self.parameters.join(ascii!(03/11))`. -/
def format_parameters (cf : ControlFunction) : Str := joinSemi cf.parameters

/-- Rust `impl Display for ControlFunction` (lib.rs lines 324-339).  The
`ControlSequence` arm writes `c1::CSI` first, which itself displays as
ESCAPE followed by the CSI byte 05/11. -/
def render (cf : ControlFunction) : Str :=
  match cf.function_type with
  | ControlFunctionType.C0 => cf.value
  | ControlFunctionType.C1 => ESC.value ++ cf.value
  | ControlFunctionType.IndependentControlFunction => ESC.value ++ cf.value
  | ControlFunctionType.ControlSequence =>
      (ESC.value ++ CSI.value) ++ format_parameters cf ++ cf.value

/-- Rust slice `&s[a..b]` at character granularity. -/
def slice (s : Str) (a b : Nat) : Str := (s.take b).drop a

/-- Rust `impl PartialEq<T> for ControlFunction` (lib.rs lines 365-385).
`none` models a panic: for the C1 / independent arm the source slices
`other_str[0..1]` and `other_str[1..2]` by bytes, which panics when byte 1
is not a character boundary, i.e. when a 2-byte string is one 2-byte
character. -/
def cfEqStr (cf : ControlFunction) (other : Str) : Option Bool :=
  match cf.function_type with
  | ControlFunctionType.C0 => some (decide (cf.value = other))
  | ControlFunctionType.C1 | ControlFunctionType.IndependentControlFunction =>
      if byteLen other ≠ 2 then some false
      else if other.length = 2 then
        some (decide (slice other 0 1 = ESC.value) && decide (slice other 1 2 = cf.value))
      else none
  | ControlFunctionType.ControlSequence => some (decide (render cf = other))

/-- The adapter as used by the scanner, where the panic case is unreachable
(the compared string is always ASCII there). -/
def cfEqb (cf : ControlFunction) (other : Str) : Bool := (cfEqStr cf other).getD false

/-- Rust `enum InvalidControlFunction` of lib.rs. -/
inductive InvalidControlFunction where
  | InvalidAsciiError
  | InvalidFunctionValueError
  | InvalidIntermediateByteError
  | InvalidPrivateUseError
deriving DecidableEq, Repr

/-- Outcome of `ControlFunction::private_use`: `ok`/`err` model the Rust
`Result`; `indexOutOfBounds` models a panic from an out-of-range string
slice. -/
inductive PrivateUseResult where
  | ok (cf : ControlFunction)
  | err (e : InvalidControlFunction)
  | indexOutOfBounds
deriving DecidableEq, Repr

/-- Rust `ControlFunction::private_use` (lib.rs lines 289-317).  The source checks
`!value.is_ascii()`, then `value.as_bytes().len() > 2`, then for a 2-byte
value that its first byte is 02/00, and finally that the selecting byte is in
column 07.  When the value is empty, `&value[0..1]` slices past the end of
the string, which panics (`indexOutOfBounds`).  After the ASCII check the
byte length equals the character count, so list patterns are exact. -/
def ControlFunction.private_use (value : Str) (parameters : List Str) : PrivateUseResult :=
  if ¬ strIsAscii value then PrivateUseResult.err InvalidControlFunction.InvalidAsciiError
  else if byteLen value > 2 then
    PrivateUseResult.err InvalidControlFunction.InvalidFunctionValueError
  else if byteLen value = 2 then
    match value with
    | a :: b :: _ =>
        if [a] ≠ [chr 0x20] then
          PrivateUseResult.err InvalidControlFunction.InvalidIntermediateByteError
        else if (Char.toNat b) >>> 4 ≠ 7 then
          PrivateUseResult.err InvalidControlFunction.InvalidPrivateUseError
        else PrivateUseResult.ok (ControlFunction.new_sequence value parameters)
    | _ => PrivateUseResult.indexOutOfBounds
  else
    match value with
    | [] => PrivateUseResult.indexOutOfBounds
    | a :: _ =>
        if (Char.toNat a) >>> 4 ≠ 7 then
          PrivateUseResult.err InvalidControlFunction.InvalidPrivateUseError
        else PrivateUseResult.ok (ControlFunction.new_sequence value parameters)

/- Parser (parser.rs). -/

/-- Rust `C0_CODES`: all C0 codes except ESC (parser.rs lines 34-37). -/
def C0_CODES : List ControlFunction :=
  [ACK, BEL, BS, CAN, CR, DC1, DC2, DC3, DC4, DLE, EM, ENQ, EOT, ETB, ETX, FF, HT, IS1, IS2,
    IS3, IS4, LF, NAK, NUL, SI, SO, SOH, STX, SUB, SYN, VT]

/-- Rust `C1_CODES`: all C1 codes except CSI (parser.rs lines 40-43). -/
def C1_CODES : List ControlFunction :=
  [BPH, NBH, NEL, SSA, ESA, HTS, HTJ, VTS, PLD, PLU, RI, SS2, SS3, DCS, PU1, PU2, STS, CCH,
    MW, SPA, EPA, SOS, SCI, ST, OSC, PM, APC]

/-- Rust `INDEPDENDENT_CODES` (sic) of parser.rs lines 46-47. -/
def INDEPDENDENT_CODES : List ControlFunction :=
  [DMI, INT, EMI, RIS, CMD, LS2, LS3, LS3R, LS2R, LS1R]

/-- Lower bound 04/00 of control-sequence terminator bytes. -/
def CONTROL_FUNCTION_LOWER_BOUND : Nat := 0x40

/-- Upper bound 07/15 of control-sequence terminator bytes. -/
def CONTROL_FUNCTION_UPPER_BOUND : Nat := 0x7F

/-- Lower bound 03/00 of parameter bytes. -/
def PARAMETER_LOWER_BOUND : Nat := 0x30

/-- Upper bound 03/15 of parameter bytes. -/
def PARAMETER_UPPER_BOUND : Nat := 0x3F

/-- The parameter separator byte 03/11. -/
def PARAMETER_SEPARATOR : Char := chr 0x3B

/-- Rust `enum Token` of parser.rs. -/
inductive Token where
  | String (s : Str)
  | ControlFunction (cf : ControlFunction)
deriving DecidableEq, Repr

/-- Rust `TokenStream::get_next_char_boundary` at character granularity: past-the-end
positions are returned unchanged, otherwise the next boundary is one character
further. -/
def get_next_char_boundary (s : Str) (position : Nat) : Nat :=
  if position ≥ s.length then position else position + 1

/-- Rust `str::split` with the one-character pattern `";"`: splitting preserves empty
fields and yields `[""]` on the empty string. -/
def splitSemi : Str → List Str
  | [] => [[]]
  | c :: rest =>
      if c = PARAMETER_SEPARATOR then [] :: splitSemi rest
      else
        match splitSemi rest with
        | [] => [[c]]
        | p :: ps => (c :: p) :: ps

/-- Rust `TokenStream::emit_current_string`: flush the pending text span
`[selfPosition, cur)` if it is non-empty, moving the stream position to `cur`. -/
def emit_current_string (s : Str) (selfPosition cur : Nat) : Option (Token × Nat) :=
  if cur ≠ selfPosition then some (Token.String (slice s selfPosition cur), cur)
  else none

/-- The `emit_current_string(...).or_else(...)` pattern used at every match site
of `TokenStream::next`: emit pending text first, otherwise emit the control
function and advance the position to `newPosition`. -/
def emitOrFunction (s : Str) (selfPosition cur : Nat) (tok : Token) (newPosition : Nat) :
    Token × Nat :=
  match emit_current_string s selfPosition cur with
  | some r => r
  | none => (tok, newPosition)

/-- The labelled `'control_sequence_loop` of `TokenStream::next` (parser.rs lines
270-334).  Starting just after CSI at `csStart`, it scans parameter bytes and at
most one intermediate byte 02/00; on a terminator byte it returns the function
value, the raw (unsplit) parameter text and the position after the terminator;
on end of input or an invalid byte it returns `none` (the `break`).  The fuel
argument only bounds the recursion; one unit is spent per scanned character. -/
def control_sequence_loop (s : Str) (csStart : Nat) : Nat → Bool → Nat → Option (Str × Str × Nat)
  | _, _, 0 => none
  | cur, intermediate_byte, fuel + 1 =>
      let nxt := get_next_char_boundary s cur
      let c := slice s cur nxt
      if byteLen c ≠ 1 then none
      else
        let b := (c.headD 'A').toNat
        if CONTROL_FUNCTION_LOWER_BOUND ≤ b ∧ b ≤ CONTROL_FUNCTION_UPPER_BOUND then
          let control_function_value := if intermediate_byte then slice s (cur - 1) nxt else c
          let parameters_unparsed :=
            if intermediate_byte then slice s csStart (cur - 1) else slice s csStart cur
          some (control_function_value, parameters_unparsed, nxt)
        else if intermediate_byte then none
        else
          let intermediate_byte2 :=
            if b < PARAMETER_LOWER_BOUND ∨ PARAMETER_UPPER_BOUND < b then
              decide (c = [chr 0x20])
            else intermediate_byte
          if (b < PARAMETER_LOWER_BOUND ∨ PARAMETER_UPPER_BOUND < b) ∧
              intermediate_byte2 = false then none
          else if nxt = s.length then none
          else control_sequence_loop s csStart nxt intermediate_byte2 fuel

/-- The main `while` loop of `TokenStream::next` (parser.rs lines 137-352),
scanning from `cur` with pending-text start `selfPosition`.  Fuel only bounds
the recursion (one unit per advance of the cursor); with fuel at least
`s.length - cur` it is never exhausted.  On control-sequence abort the cursor
moves just past ESCAPE and scanning continues, exactly as the `break` of the
inner loop falls through to `current_position = next_char_boundary`. -/
def next_loop (s : Str) (selfPosition : Nat) : Nat → Nat → Option (Token × Nat)
  | cur, 0 => if cur < s.length then none else emit_current_string s selfPosition cur
  | cur, fuel + 1 =>
    if cur < s.length then
        let nxt := get_next_char_boundary s cur
        let c := slice s cur nxt
        if ¬ strIsAscii c then next_loop s selfPosition nxt fuel
        else
          match C0_CODES.find? (fun code => cfEqb code c) with
          | some code => some (emitOrFunction s selfPosition cur (Token.ControlFunction code) nxt)
          | none =>
            if cfEqb ESC c then
              if s.length = nxt then
                some (emitOrFunction s selfPosition cur (Token.ControlFunction ESC) nxt)
              else
                let nnxt := get_next_char_boundary s nxt
                let c2 := slice s nxt nnxt
                let cs := slice s cur nnxt
                if ¬ strIsAscii c2 then
                  some (emitOrFunction s selfPosition cur (Token.ControlFunction ESC) nxt)
                else
                  match C1_CODES.find? (fun code => cfEqb code cs) with
                  | some code =>
                      some (emitOrFunction s selfPosition cur (Token.ControlFunction code) nnxt)
                  | none =>
                    match INDEPDENDENT_CODES.find? (fun code => cfEqb code cs) with
                    | some code =>
                        some (emitOrFunction s selfPosition cur (Token.ControlFunction code) nnxt)
                    | none =>
                      if cfEqb CSI cs then
                        match control_sequence_loop s nnxt nnxt false (s.length + 1) with
                        | some (v, raw, endPos) =>
                            some (emitOrFunction s selfPosition cur
                              (Token.ControlFunction
                                (ControlFunction.new_sequence v (splitSemi raw))) endPos)
                        | none => next_loop s selfPosition nxt fuel
                      else
                        some (emitOrFunction s selfPosition cur (Token.ControlFunction ESC) nxt)
            else
              next_loop s selfPosition nxt fuel
    else
      emit_current_string s selfPosition cur

/-- Rust `TokenStream::next`: one step of the iterator, returning the token and the
new stream position.  `s.length + 1` fuel is always sufficient. -/
def TokenStream.next (s : Str) (position : Nat) : Option (Token × Nat) :=
  next_loop s position position (s.length + 1)

/-- Driving the iterator to exhaustion (`collect`), fuel-bounded. -/
def decode_loop (s : Str) : Nat → Nat → List Token
  | _, 0 => []
  | position, fuel + 1 =>
    match TokenStream.next s position with
    | none => []
    | some (tok, p) => tok :: decode_loop s p fuel

/-- Rust `TokenStream::from(s).collect()`: the full token list of an input. -/
def decode (s : Str) : List Token := decode_loop s 0 (s.length + 1)

/-- Like `decode`, but paired with the span of input consumed for each token. -/
def decode_spans_loop (s : Str) : Nat → Nat → List (Token × Str)
  | _, 0 => []
  | position, fuel + 1 =>
    match TokenStream.next s position with
    | none => []
    | some (tok, p) => (tok, slice s position p) :: decode_spans_loop s p fuel

/-- The token list together with the consumed input span of each token. -/
def decode_spans (s : Str) : List (Token × Str) := decode_spans_loop s 0 (s.length + 1)

/-- The literal content of a token: a text token's span verbatim, a function
token's consumed bytes. -/
def token_content (tok : Token) (consumed : Str) : Str :=
  match tok with
  | Token.String t => t
  | Token.ControlFunction _ => consumed

/-- Identifier byte strings accepted by the claim for a decodable control
sequence: a single terminator byte, or the intermediate byte 02/00 followed by
a terminator byte. -/
def goodSequenceValue (v : Str) : Bool :=
  match v with
  | [f] => decide (0x40 ≤ f.toNat) && decide (f.toNat ≤ 0x7F)
  | [i, f] => decide (i = chr 0x20) && (decide (0x40 ≤ f.toNat) && decide (f.toNat ≤ 0x7F))
  | _ => false

/-- All fixed control-function constants of the catalog: the C0 module
(including ESC, LS0, LS1), the C1 module (including CSI), and the independent
control functions. -/
def STANDARD_CODES : List ControlFunction :=
  [ACK, BEL, BS, CAN, CR, DC1, DC2, DC3, DC4, DLE, EM, ENQ, EOT, ESC, ETB, ETX, FF, HT, IS1,
    IS2, IS3, IS4, LF, LS0, LS1, NAK, NUL, SI, SO, SOH, STX, SUB, SYN, VT,
    APC, BPH, CCH, CSI, DCS, EPA, ESA, HTJ, HTS, MW, NBH, NEL, OSC, PLD, PLU, PM, PU1, PU2,
    RI, SCI, SOS, SPA, SS2, SS3, SSA, ST, STS, VTS,
    CMD, DMI, EMI, INT, LS1R, LS2, LS2R, LS3, LS3R, RIS]

/-- Well-formedness of a token list as emitted by the decoder: no empty text
token, and no two adjacent text tokens. -/
def textOk : List Token → Bool
  | [] => true
  | Token.ControlFunction _ :: rest => textOk rest
  | Token.String _ :: Token.String _ :: _ => false
  | Token.String t :: rest => !t.isEmpty && textOk rest

/-- The value-model invariant relevant to the comparison adapter: a C1 or
independent control function carries a single ASCII identifier byte (all
catalog constants satisfy this). -/
def wellFormedValue (cf : ControlFunction) : Bool :=
  match cf.function_type with
  | ControlFunctionType.C1 | ControlFunctionType.IndependentControlFunction =>
      match cf.value with
      | [v] => decide (v.toNat < 128)
      | _ => false
  | _ => true

/- Standard control-sequence builders (control_sequences.rs).  Numeric
parameters (`u32`, and mode/selective enum discriminants cast with `as u32`)
are modelled as `Nat`; `u32::to_string` is `natToString`. -/

/-- Decimal digit character for a value below ten. -/
def digitChar (n : Nat) : Char := chr (0x30 + n)

/-- Decimal digits of `n`, most significant first; fuel-bounded division loop. -/
def natToStringAux : Nat → Nat → Str
  | 0, _ => []
  | fuel + 1, n =>
      if n < 10 then [digitChar n]
      else natToStringAux fuel (n / 10) ++ [digitChar (n % 10)]

/-- Rust `u32::to_string`: decimal representation of an unsigned integer. -/
def natToString (n : Nat) : Str := natToStringAux (n + 1) n

/-- Rust `CUP(n, m)`: `sequence!(04/08, numeric n, default 1, numeric m, default 1)`. -/
def CUP (n m : Option Nat) : ControlFunction :=
  ControlFunction.new_sequence [chr 0x48] [natToString (n.getD 1), natToString (m.getD 1)]

/-- Rust `RM(v)`: `sequence!(06/12, variadic selective v)`, each mode rendered as its
`u32` discriminant. -/
def RM (v : List Nat) : ControlFunction :=
  ControlFunction.new_sequence [chr 0x6C] (v.map natToString)

/-- Rust `CHA(n)`: `sequence!(04/07, numeric n, default 1)`. -/
def CHA (n : Option Nat) : ControlFunction :=
  ControlFunction.new_sequence [chr 0x47] [natToString (n.getD 1)]

/-- Rust `SL(n)`: `sequence!(02/00, 04/00, numeric n, default 1)`, with intermediate
byte 02/00 in the identifier. -/
def SL (n : Option Nat) : ControlFunction :=
  ControlFunction.new_sequence [chr 0x20, chr 0x40] [natToString (n.getD 1)]

/- Helper lemmas about `slice`. -/

theorem slice_zero_length (s : Str) : slice s 0 s.length = s := by
  simp [slice]

theorem slice_length (s : Str) (a b : Nat) (hb : b ≤ s.length) :
    (slice s a b).length = b - a := by
  simp [slice, Nat.min_eq_left hb]

theorem slice_ne_nil (s : Str) (a b : Nat) (hab : a < b) (hb : b ≤ s.length) :
    slice s a b ≠ [] := by
  have h := slice_length s a b hb
  intro hcon
  rw [hcon] at h
  simp at h
  omega

theorem slice_append (A l : Str) (i j : Nat) :
    slice (A ++ l) (A.length + i) (A.length + j) = slice l i j := by
  simp [slice, List.take_append, List.drop_append]

theorem slice_append_right (A l : Str) (k : Nat) :
    slice (A ++ l) A.length (A.length + k) = l.take k := by
  have h := slice_append A l 0 k
  simpa [slice] using h

theorem slice_append_drop (s : Str) (a b : Nat) (hab : a ≤ b) :
    slice s a b ++ s.drop b = s.drop a := by
  by_cases hb : b ≤ s.length
  · conv_rhs => rw [← List.take_append_drop b s]
    rw [List.drop_append_eq_append_drop]
    have hlen : (s.take b).length = b := by simp [Nat.min_eq_left hb]
    have ha : a - (s.take b).length = 0 := by omega
    rw [ha]
    rfl
  · have h1 : s.take b = s := List.take_of_length_le (by omega)
    have h2 : s.drop b = [] := List.drop_eq_nil_of_le (by omega)
    simp [slice, h1, h2]

/-- Rust `joinSemi` is exactly the parameter entries interleaved with single 03/11
separators: one between consecutive entries, none trailing, nothing for the
empty list. -/
theorem joinSemi_eq_intercalate (ps : List Str) :
    joinSemi ps = List.intercalate [chr 0x3B] ps := by
  induction ps with
  | nil => simp [joinSemi, List.intercalate]
  | cons p ps ih =>
      cases ps with
      | nil => simp [joinSemi, List.intercalate, List.intersperse]
      | cons q qs =>
          simp only [joinSemi, ih, List.intercalate, List.intersperse] at *
          simp_all

/- Structural lemmas about the scanner. -/

theorem slice_at_end (s : Str) (cur : Nat) (h : s.length ≤ cur) :
    slice s cur (get_next_char_boundary s cur) = [] := by
  have hg : get_next_char_boundary s cur = cur := by simp [get_next_char_boundary, h]
  rw [hg]
  apply List.drop_eq_nil_of_le
  simp

theorem gncb_of_lt (s : Str) (cur : Nat) (h : cur < s.length) :
    get_next_char_boundary s cur = cur + 1 := by
  simp [get_next_char_boundary, Nat.not_le.mpr h]

theorem emitOrFunction_cases (s : Str) (pos cur : Nat) (tok0 : Token) (newPos : Nat) :
    (emitOrFunction s pos cur tok0 newPos = (Token.String (slice s pos cur), cur) ∧ cur ≠ pos) ∨
    (emitOrFunction s pos cur tok0 newPos = (tok0, newPos) ∧ cur = pos) := by
  by_cases h : cur = pos
  · right
    refine ⟨?_, h⟩
    simp [emitOrFunction, emit_current_string, h]
  · left
    refine ⟨?_, h⟩
    simp [emitOrFunction, emit_current_string, h]

/-- Bounds for a successful control-sequence scan: the end position is past the
start and inside the input. -/
theorem cs_loop_bounds (s : Str) (csStart : Nat) :
    ∀ fuel cur ib v raw e, cur ≤ s.length →
      control_sequence_loop s csStart cur ib fuel = some (v, raw, e) →
      cur < e ∧ e ≤ s.length := by
  intro fuel
  induction fuel with
  | zero =>
      intro cur ib v raw e hcur h
      simp [control_sequence_loop] at h
  | succ fuel ih =>
      intro cur ib v raw e hcur h
      by_cases hlt : cur < s.length
      · simp only [control_sequence_loop] at h
        rw [gncb_of_lt s cur hlt] at h
        split_ifs at h <;>
          first
          | (simp at h
             done)
          | (simp only [Option.some_inj, Prod.mk.injEq] at h
             obtain ⟨-, -, he⟩ := h
             omega)
          | (have hrec : cur + 1 < e ∧ e ≤ s.length := ih _ _ v raw e (by omega) h
             omega)
      · have hend : slice s cur (get_next_char_boundary s cur) = [] :=
          slice_at_end s cur (by omega)
        simp only [control_sequence_loop] at h
        rw [hend] at h
        simp [byteLen] at h

/-- Behaviour of `emit_current_string` once the cursor has finished its scan. -/
theorem emit_spec (s : Str) (pos cur : Nat) (h1 : pos ≤ cur) (h2 : cur ≤ s.length) :
    (emit_current_string s pos cur = none → pos = cur) ∧
    (∀ tok p, emit_current_string s pos cur = some (tok, p) →
      pos < p ∧ p ≤ s.length ∧ ∀ t, tok = Token.String t → t = slice s pos p) := by
  constructor
  · intro h
    simp only [emit_current_string] at h
    by_cases hne : cur = pos
    · omega
    · rw [if_pos hne] at h
      exact absurd h (by simp)
  · intro tok p h
    simp only [emit_current_string] at h
    by_cases hne : cur = pos
    · rw [if_neg (not_not_intro hne)] at h
      exact absurd h (by simp)
    · rw [if_pos hne] at h
      simp only [Option.some_inj] at h
      injection h with htok hp
      subst htok
      subst hp
      refine ⟨by omega, by omega, ?_⟩
      intro t ht
      injection ht with hts
      exact hts.symm

/- Reduction lemmas for one iteration of the scanner's main loop, one per
branch of `TokenStream::next`. -/

theorem next_loop_step_nonascii (s : Str) (pos cur fuel : Nat) (hlt : cur < s.length)
    (hA : strIsAscii (slice s cur (cur + 1)) = false) :
    next_loop s pos cur (fuel + 1) = next_loop s pos (cur + 1) fuel := by
  rw [next_loop, if_pos hlt, gncb_of_lt s cur hlt]
  simp [hA]

theorem next_loop_step_c0 (s : Str) (pos cur fuel : Nat) (hlt : cur < s.length)
    (code : ControlFunction)
    (hA : strIsAscii (slice s cur (cur + 1)) = true)
    (hC0 : C0_CODES.find? (fun cd => cfEqb cd (slice s cur (cur + 1))) = some code) :
    next_loop s pos cur (fuel + 1) =
      some (emitOrFunction s pos cur (Token.ControlFunction code) (cur + 1)) := by
  rw [next_loop, if_pos hlt, gncb_of_lt s cur hlt]
  simp [hA, hC0]

theorem next_loop_step_esc_end (s : Str) (pos cur fuel : Nat) (hlt : cur < s.length)
    (hA : strIsAscii (slice s cur (cur + 1)) = true)
    (hC0 : C0_CODES.find? (fun cd => cfEqb cd (slice s cur (cur + 1))) = none)
    (hEsc : cfEqb ESC (slice s cur (cur + 1)) = true)
    (hEnd : s.length = cur + 1) :
    next_loop s pos cur (fuel + 1) =
      some (emitOrFunction s pos cur (Token.ControlFunction ESC) (cur + 1)) := by
  rw [next_loop, if_pos hlt, gncb_of_lt s cur hlt]
  simp [hA, hC0, hEsc, hEnd]

theorem next_loop_step_esc_nonascii (s : Str) (pos cur fuel : Nat) (hlt2 : cur + 1 < s.length)
    (hA : strIsAscii (slice s cur (cur + 1)) = true)
    (hC0 : C0_CODES.find? (fun cd => cfEqb cd (slice s cur (cur + 1))) = none)
    (hEsc : cfEqb ESC (slice s cur (cur + 1)) = true)
    (hA2 : strIsAscii (slice s (cur + 1) (cur + 2)) = false) :
    next_loop s pos cur (fuel + 1) =
      some (emitOrFunction s pos cur (Token.ControlFunction ESC) (cur + 1)) := by
  have hlt : cur < s.length := by omega
  have hEnd : ¬ (s.length = cur + 1) := by omega
  rw [next_loop, if_pos hlt, gncb_of_lt s cur hlt]
  simp [gncb_of_lt s (cur + 1) hlt2, hA, hC0, hEsc, hEnd, hA2]

theorem next_loop_step_c1 (s : Str) (pos cur fuel : Nat) (hlt2 : cur + 1 < s.length)
    (code : ControlFunction)
    (hA : strIsAscii (slice s cur (cur + 1)) = true)
    (hC0 : C0_CODES.find? (fun cd => cfEqb cd (slice s cur (cur + 1))) = none)
    (hEsc : cfEqb ESC (slice s cur (cur + 1)) = true)
    (hA2 : strIsAscii (slice s (cur + 1) (cur + 2)) = true)
    (hC1 : C1_CODES.find? (fun cd => cfEqb cd (slice s cur (cur + 2))) = some code) :
    next_loop s pos cur (fuel + 1) =
      some (emitOrFunction s pos cur (Token.ControlFunction code) (cur + 2)) := by
  have hlt : cur < s.length := by omega
  have hEnd : ¬ (s.length = cur + 1) := by omega
  rw [next_loop, if_pos hlt, gncb_of_lt s cur hlt]
  simp [gncb_of_lt s (cur + 1) hlt2, hA, hC0, hEsc, hEnd, hA2, hC1]

theorem next_loop_step_independent (s : Str) (pos cur fuel : Nat) (hlt2 : cur + 1 < s.length)
    (code : ControlFunction)
    (hA : strIsAscii (slice s cur (cur + 1)) = true)
    (hC0 : C0_CODES.find? (fun cd => cfEqb cd (slice s cur (cur + 1))) = none)
    (hEsc : cfEqb ESC (slice s cur (cur + 1)) = true)
    (hA2 : strIsAscii (slice s (cur + 1) (cur + 2)) = true)
    (hC1 : C1_CODES.find? (fun cd => cfEqb cd (slice s cur (cur + 2))) = none)
    (hInd : INDEPDENDENT_CODES.find? (fun cd => cfEqb cd (slice s cur (cur + 2))) = some code) :
    next_loop s pos cur (fuel + 1) =
      some (emitOrFunction s pos cur (Token.ControlFunction code) (cur + 2)) := by
  have hlt : cur < s.length := by omega
  have hEnd : ¬ (s.length = cur + 1) := by omega
  rw [next_loop, if_pos hlt, gncb_of_lt s cur hlt]
  simp [gncb_of_lt s (cur + 1) hlt2, hA, hC0, hEsc, hEnd, hA2, hC1, hInd]

theorem next_loop_step_csi (s : Str) (pos cur fuel : Nat) (hlt2 : cur + 1 < s.length)
    (v raw : Str) (e : Nat)
    (hA : strIsAscii (slice s cur (cur + 1)) = true)
    (hC0 : C0_CODES.find? (fun cd => cfEqb cd (slice s cur (cur + 1))) = none)
    (hEsc : cfEqb ESC (slice s cur (cur + 1)) = true)
    (hA2 : strIsAscii (slice s (cur + 1) (cur + 2)) = true)
    (hC1 : C1_CODES.find? (fun cd => cfEqb cd (slice s cur (cur + 2))) = none)
    (hInd : INDEPDENDENT_CODES.find? (fun cd => cfEqb cd (slice s cur (cur + 2))) = none)
    (hCsi : cfEqb CSI (slice s cur (cur + 2)) = true)
    (hCs : control_sequence_loop s (cur + 2) (cur + 2) false (s.length + 1) =
      some (v, raw, e)) :
    next_loop s pos cur (fuel + 1) =
      some (emitOrFunction s pos cur
        (Token.ControlFunction (ControlFunction.new_sequence v (splitSemi raw))) e) := by
  have hlt : cur < s.length := by omega
  have hEnd : ¬ (s.length = cur + 1) := by omega
  rw [next_loop, if_pos hlt, gncb_of_lt s cur hlt]
  simp [gncb_of_lt s (cur + 1) hlt2, hA, hC0, hEsc, hEnd, hA2, hC1, hInd, hCsi, hCs]

theorem next_loop_step_csi_abort (s : Str) (pos cur fuel : Nat) (hlt2 : cur + 1 < s.length)
    (hA : strIsAscii (slice s cur (cur + 1)) = true)
    (hC0 : C0_CODES.find? (fun cd => cfEqb cd (slice s cur (cur + 1))) = none)
    (hEsc : cfEqb ESC (slice s cur (cur + 1)) = true)
    (hA2 : strIsAscii (slice s (cur + 1) (cur + 2)) = true)
    (hC1 : C1_CODES.find? (fun cd => cfEqb cd (slice s cur (cur + 2))) = none)
    (hInd : INDEPDENDENT_CODES.find? (fun cd => cfEqb cd (slice s cur (cur + 2))) = none)
    (hCsi : cfEqb CSI (slice s cur (cur + 2)) = true)
    (hCs : control_sequence_loop s (cur + 2) (cur + 2) false (s.length + 1) = none) :
    next_loop s pos cur (fuel + 1) = next_loop s pos (cur + 1) fuel := by
  have hlt : cur < s.length := by omega
  have hEnd : ¬ (s.length = cur + 1) := by omega
  rw [next_loop, if_pos hlt, gncb_of_lt s cur hlt]
  simp [gncb_of_lt s (cur + 1) hlt2, hA, hC0, hEsc, hEnd, hA2, hC1, hInd, hCsi, hCs]

theorem next_loop_step_esc_other (s : Str) (pos cur fuel : Nat) (hlt2 : cur + 1 < s.length)
    (hA : strIsAscii (slice s cur (cur + 1)) = true)
    (hC0 : C0_CODES.find? (fun cd => cfEqb cd (slice s cur (cur + 1))) = none)
    (hEsc : cfEqb ESC (slice s cur (cur + 1)) = true)
    (hA2 : strIsAscii (slice s (cur + 1) (cur + 2)) = true)
    (hC1 : C1_CODES.find? (fun cd => cfEqb cd (slice s cur (cur + 2))) = none)
    (hInd : INDEPDENDENT_CODES.find? (fun cd => cfEqb cd (slice s cur (cur + 2))) = none)
    (hCsi : cfEqb CSI (slice s cur (cur + 2)) = false) :
    next_loop s pos cur (fuel + 1) =
      some (emitOrFunction s pos cur (Token.ControlFunction ESC) (cur + 1)) := by
  have hlt : cur < s.length := by omega
  have hEnd : ¬ (s.length = cur + 1) := by omega
  rw [next_loop, if_pos hlt, gncb_of_lt s cur hlt]
  simp [gncb_of_lt s (cur + 1) hlt2, hA, hC0, hEsc, hEnd, hA2, hC1, hInd, hCsi]

theorem next_loop_step_plain (s : Str) (pos cur fuel : Nat) (hlt : cur < s.length)
    (hA : strIsAscii (slice s cur (cur + 1)) = true)
    (hC0 : C0_CODES.find? (fun cd => cfEqb cd (slice s cur (cur + 1))) = none)
    (hEsc : cfEqb ESC (slice s cur (cur + 1)) = false) :
    next_loop s pos cur (fuel + 1) = next_loop s pos (cur + 1) fuel := by
  rw [next_loop, if_pos hlt, gncb_of_lt s cur hlt]
  simp [hA, hC0, hEsc]

/-- One step of the iterator: a returned token strictly advances the position,
stays inside the input, and a text token is exactly the span it covers;
`none` is only returned once the position has reached the end. -/
theorem next_loop_spec (s : Str) (pos : Nat) :
    ∀ fuel cur, pos ≤ cur → cur ≤ s.length → s.length - cur ≤ fuel →
      (next_loop s pos cur fuel = none → pos = s.length) ∧
      (∀ tok p, next_loop s pos cur fuel = some (tok, p) →
        pos < p ∧ p ≤ s.length ∧ ∀ t, tok = Token.String t → t = slice s pos p) := by
  intro fuel
  induction fuel with
  | zero =>
      intro cur h1 h2 h3
      have hc : cur = s.length := by omega
      rw [next_loop, if_neg (by omega : ¬ cur < s.length)]
      constructor
      · intro h
        have := (emit_spec s pos cur h1 h2).1 h
        omega
      · intro tok p h
        exact (emit_spec s pos cur h1 h2).2 tok p h
  | succ fuel ih =>
      intro cur h1 h2 h3
      by_cases hlt : cur < s.length
      case neg =>
        have hc : cur = s.length := by omega
        rw [next_loop, if_neg hlt]
        constructor
        · intro h
          have := (emit_spec s pos cur h1 h2).1 h
          omega
        · intro tok p h
          exact (emit_spec s pos cur h1 h2).2 tok p h
      case pos =>
        have hSome : ∀ (tok0 : Token) (newPos : Nat), cur < newPos → newPos ≤ s.length →
            (∀ t0, tok0 ≠ Token.String t0) →
            (some (emitOrFunction s pos cur tok0 newPos) = none → pos = s.length) ∧
            (∀ tok p, some (emitOrFunction s pos cur tok0 newPos) = some (tok, p) →
              pos < p ∧ p ≤ s.length ∧ ∀ t, tok = Token.String t → t = slice s pos p) := by
          intro tok0 newPos hn1 hn2 hns
          constructor
          · intro h
            simp at h
          · intro tok p h
            rw [Option.some_inj] at h
            rcases emitOrFunction_cases s pos cur tok0 newPos with ⟨he, hne⟩ | ⟨he, heq⟩
            · rw [he] at h
              injection h with htok hp
              subst htok
              subst hp
              refine ⟨by omega, by omega, ?_⟩
              intro t ht
              injection ht with hts
              exact hts.symm
            · rw [he] at h
              injection h with htok hp
              subst htok
              subst hp
              refine ⟨by omega, by omega, ?_⟩
              intro t ht
              exact absurd ht (hns t)
        by_cases hA : strIsAscii (slice s cur (cur + 1)) = true
        case neg =>
          have hA2 : strIsAscii (slice s cur (cur + 1)) = false := by
            simpa using hA
          rw [next_loop_step_nonascii s pos cur fuel hlt hA2]
          exact ih (cur + 1) (by omega) (by omega) (by omega)
        case pos =>
          rcases hC0 : C0_CODES.find? (fun cd => cfEqb cd (slice s cur (cur + 1))) with _ | code
          case some =>
            rw [next_loop_step_c0 s pos cur fuel hlt code hA hC0]
            exact hSome _ _ (by omega) (by omega) (by intro t0 ht0; simp at ht0)
          case none =>
            by_cases hEsc : cfEqb ESC (slice s cur (cur + 1)) = true
            case neg =>
              have hEsc2 : cfEqb ESC (slice s cur (cur + 1)) = false := by
                simpa using hEsc
              rw [next_loop_step_plain s pos cur fuel hlt hA hC0 hEsc2]
              exact ih (cur + 1) (by omega) (by omega) (by omega)
            case pos =>
              by_cases hEnd : s.length = cur + 1
              case pos =>
                rw [next_loop_step_esc_end s pos cur fuel hlt hA hC0 hEsc hEnd]
                exact hSome _ _ (by omega) (by omega) (by intro t0 ht0; simp at ht0)
              case neg =>
                have hlt2 : cur + 1 < s.length := by omega
                by_cases hA2 : strIsAscii (slice s (cur + 1) (cur + 2)) = true
                case neg =>
                  have hA2f : strIsAscii (slice s (cur + 1) (cur + 2)) = false := by
                    simpa using hA2
                  rw [next_loop_step_esc_nonascii s pos cur fuel hlt2 hA hC0 hEsc hA2f]
                  exact hSome _ _ (by omega) (by omega) (by intro t0 ht0; simp at ht0)
                case pos =>
                  rcases hC1 : C1_CODES.find? (fun cd => cfEqb cd (slice s cur (cur + 2))) with
                    _ | code1
                  case some =>
                    rw [next_loop_step_c1 s pos cur fuel hlt2 code1 hA hC0 hEsc hA2 hC1]
                    exact hSome _ _ (by omega) (by omega) (by intro t0 ht0; simp at ht0)
                  case none =>
                    rcases hInd : INDEPDENDENT_CODES.find?
                        (fun cd => cfEqb cd (slice s cur (cur + 2))) with _ | code2
                    case some =>
                      rw [next_loop_step_independent s pos cur fuel hlt2 code2 hA hC0 hEsc hA2
                        hC1 hInd]
                      exact hSome _ _ (by omega) (by omega) (by intro t0 ht0; simp at ht0)
                    case none =>
                      by_cases hCsi : cfEqb CSI (slice s cur (cur + 2)) = true
                      case neg =>
                        have hCsi2 : cfEqb CSI (slice s cur (cur + 2)) = false := by
                          simpa using hCsi
                        rw [next_loop_step_esc_other s pos cur fuel hlt2 hA hC0 hEsc hA2 hC1
                          hInd hCsi2]
                        exact hSome _ _ (by omega) (by omega) (by intro t0 ht0; simp at ht0)
                      case pos =>
                        rcases hCs : control_sequence_loop s (cur + 2) (cur + 2) false
                            (s.length + 1) with _ | ⟨v, raw, e⟩
                        case none =>
                          rw [next_loop_step_csi_abort s pos cur fuel hlt2 hA hC0 hEsc hA2 hC1
                            hInd hCsi hCs]
                          exact ih (cur + 1) (by omega) (by omega) (by omega)
                        case some =>
                          rw [next_loop_step_csi s pos cur fuel hlt2 v raw e hA hC0 hEsc hA2
                            hC1 hInd hCsi hCs]
                          have hb := cs_loop_bounds s (cur + 2) (s.length + 1) (cur + 2) false
                            v raw e (by omega) hCs
                          exact hSome _ _ (by omega) (by omega)
                            (by intro t0 ht0; simp at ht0)

/-- Specialization of `next_loop_spec` to `TokenStream.next`. -/
theorem next_advances (s : Str) (pos : Nat) (tok : Token) (p : Nat) (hpos : pos ≤ s.length)
    (h : TokenStream.next s pos = some (tok, p)) :
    pos < p ∧ p ≤ s.length ∧ ∀ t, tok = Token.String t → t = slice s pos p :=
  (next_loop_spec s pos (s.length + 1) pos le_rfl hpos (by omega)).2 tok p h

/-- Past the end of the input the iterator is exhausted. -/
theorem next_at_end (s : Str) (pos : Nat) (h : s.length ≤ pos) :
    TokenStream.next s pos = none := by
  rw [TokenStream.next, next_loop, if_neg (by omega : ¬ pos < s.length)]
  simp [emit_current_string]

/-- The iterator returns `none` exactly at the end of the input. -/
theorem next_none_iff (s : Str) (pos : Nat) (hpos : pos ≤ s.length) :
    TokenStream.next s pos = none ↔ pos = s.length := by
  constructor
  · intro h
    exact (next_loop_spec s pos (s.length + 1) pos le_rfl hpos (by omega)).1 h
  · intro h
    exact next_at_end s pos (by omega)

theorem decode_spans_fst (s : Str) :
    ∀ fuel pos, (decode_spans_loop s pos fuel).map Prod.fst = decode_loop s pos fuel := by
  intro fuel
  induction fuel with
  | zero =>
      intro pos
      simp [decode_spans_loop, decode_loop]
  | succ fuel ih =>
      intro pos
      rw [decode_spans_loop, decode_loop]
      rcases h : TokenStream.next s pos with _ | ⟨tok, p⟩
      · simp
      · simp [ih p]

theorem decode_spans_loop_concat (s : Str) :
    ∀ fuel pos, pos ≤ s.length → s.length - pos < fuel →
      ((decode_spans_loop s pos fuel).map fun tc => token_content tc.1 tc.2).flatten =
        s.drop pos := by
  intro fuel
  induction fuel with
  | zero =>
      intro pos h1 h2
      omega
  | succ fuel ih =>
      intro pos h1 h2
      rw [decode_spans_loop]
      rcases h : TokenStream.next s pos with _ | ⟨tok, p⟩
      · have hend : pos = s.length := (next_none_iff s pos h1).mp h
        simp [hend]
      · obtain ⟨ha, hb, hstr⟩ := next_advances s pos tok p h1 h
        have hcontent : token_content tok (slice s pos p) = slice s pos p := by
          cases tok with
          | String t =>
              have := hstr t rfl
              simp [token_content, this]
          | ControlFunction cf => simp [token_content]
        simp only [List.map_cons, List.flatten_cons, hcontent]
        rw [ih p (by omega) (by omega)]
        exact slice_append_drop s pos p (by omega)

/-- Claim C5: concatenating the literal content of all tokens in emission order
(text spans verbatim, and for each function token the input bytes consumed to
recognize it) reproduces the original input exactly; the instrumented stream
`decode_spans` carries the same tokens as `decode`. -/
theorem C5_concatenation (s : Str) :
    (decode_spans s).map Prod.fst = decode s ∧
    ((decode_spans s).map fun tc => token_content tc.1 tc.2).flatten = s := by
  constructor
  · exact decode_spans_fst s (s.length + 1) 0
  · have h := decode_spans_loop_concat s (s.length + 1) 0 (by omega) (by omega)
    simpa [decode_spans] using h

theorem decode_loop_fuel (s : Str) :
    ∀ fuel1 fuel2 pos, pos ≤ s.length → s.length - pos < fuel1 → s.length - pos < fuel2 →
      decode_loop s pos fuel1 = decode_loop s pos fuel2 := by
  intro fuel1
  induction fuel1 with
  | zero =>
      intro fuel2 pos h1 h2 h3
      omega
  | succ fuel1 ih =>
      intro fuel2 pos h1 h2 h3
      cases fuel2 with
      | zero => omega
      | succ fuel2 =>
          rw [decode_loop, decode_loop]
          rcases h : TokenStream.next s pos with _ | ⟨tok, p⟩
          · rfl
          · dsimp only
            obtain ⟨ha, hb, -⟩ := next_advances s pos tok p h1 h
            rw [ih fuel2 p (by omega) (by omega) (by omega)]

theorem decode_loop_length (s : Str) :
    ∀ fuel pos, pos ≤ s.length → (decode_loop s pos fuel).length ≤ s.length - pos := by
  intro fuel
  induction fuel with
  | zero =>
      intro pos h1
      simp [decode_loop]
  | succ fuel ih =>
      intro pos h1
      rw [decode_loop]
      rcases h : TokenStream.next s pos with _ | ⟨tok, p⟩
      · simp
      · obtain ⟨ha, hb, -⟩ := next_advances s pos tok p h1 h
        have := ih p (by omega)
        simp only [List.length_cons]
        omega

/-- Claim C8: decoding terminates.  Each `next` call strictly advances the
cursor through the input in a single forward pass and returns `none` exactly at
the end; the token list is finite (at most one token per input character), and
any fuel beyond the input length yields the same, already stable, token list. -/
theorem C8_termination (s : Str) (pos : Nat) (hpos : pos ≤ s.length) :
    (TokenStream.next s pos = none ↔ pos = s.length) ∧
    (∀ tok p, TokenStream.next s pos = some (tok, p) → pos < p ∧ p ≤ s.length) ∧
    (∀ fuel, s.length < fuel → decode_loop s 0 fuel = decode s) ∧
    (decode s).length ≤ s.length := by
  refine ⟨next_none_iff s pos hpos, ?_, ?_, ?_⟩
  · intro tok p h
    obtain ⟨ha, hb, -⟩ := next_advances s pos tok p hpos h
    exact ⟨ha, hb⟩
  · intro fuel hfuel
    exact decode_loop_fuel s fuel (s.length + 1) 0 (by omega) (by omega) (by omega)
  · have := decode_loop_length s (s.length + 1) 0 (by omega)
    simpa [decode] using this

/-- Witness for C8 at the concrete input "ab" and position 2. -/
theorem C8_termination_witness :
    TokenStream.next [chr 0x61, chr 0x62] 2 = none :=
  (C8_termination [chr 0x61, chr 0x62] 2 (by decide)).1.mpr (by decide)

theorem slice_one (s : Str) (cur : Nat) (h : cur < s.length) :
    slice s cur (cur + 1) = [s[cur]] := by
  apply List.ext_getElem
  · rw [slice_length s cur (cur + 1) (by omega)]
    simp
  · intro i h1 h2
    have hi : i = 0 := by
      rw [slice_length s cur (cur + 1) (by omega)] at h1
      omega
    subst hi
    simp [slice]

/-- The string-comparison adapter on a `C0` value is plain equality with the
identifier. -/
theorem cfEqb_c0 (cd : ControlFunction) (h : cd.function_type = ControlFunctionType.C0)
    (other : Str) : cfEqb cd other = decide (cd.value = other) := by
  simp [cfEqb, cfEqStr, h]

/-- Every entry of `C0_CODES` is a `C0` value whose one identifier byte is a
control byte other than ESCAPE. -/
theorem c0_codes_prop :
    ∀ cd ∈ C0_CODES, cd.function_type = ControlFunctionType.C0 ∧
      (cd.value.all fun v => decide (v.toNat < 0x20) && decide (v ≠ escChar)) = true := by
  decide

/-- A character at or above 02/00 matches no entry of the C0 table. -/
theorem c0_find_none_of_ge (ch : Char) (h : 0x20 ≤ ch.toNat) :
    C0_CODES.find? (fun cd => cfEqb cd [ch]) = none := by
  rw [List.find?_eq_none]
  intro cd hcd
  have hprop := c0_codes_prop cd hcd
  rw [cfEqb_c0 cd hprop.1]
  simp only [decide_eq_true_eq]
  intro heq
  have hall := hprop.2
  rw [heq] at hall
  simp at hall
  omega

/-- A character at or above 02/00 is not ESCAPE. -/
theorem cfEqb_esc_of_ge (ch : Char) (h : 0x20 ≤ ch.toNat) : cfEqb ESC [ch] = false := by
  rw [cfEqb_c0 ESC rfl]
  simp only [decide_eq_false_iff_not]
  intro heq
  have hx : escChar = ch := by
    have := congrArg (fun l => l.headD 'A') heq
    simpa [ESC, ControlFunction.new_c0] using this
  rw [← hx] at h
  have he : escChar.toNat = 27 := by decide
  omega

/-- Scanning a string whose ASCII characters are all at or above 02/00 runs to
the end of the input without recognizing anything. -/
theorem next_loop_all_plain (s : Str) (pos : Nat)
    (hplain : ∀ c ∈ s, c.toNat < 128 → 0x20 ≤ c.toNat) :
    ∀ fuel cur, pos ≤ cur → cur ≤ s.length → s.length - cur ≤ fuel →
      next_loop s pos cur fuel = emit_current_string s pos s.length := by
  intro fuel
  induction fuel with
  | zero =>
      intro cur h1 h2 h3
      have hc : cur = s.length := by omega
      rw [next_loop, if_neg (by omega : ¬ cur < s.length), hc]
  | succ fuel ih =>
      intro cur h1 h2 h3
      by_cases hlt : cur < s.length
      case neg =>
        have hc : cur = s.length := by omega
        rw [next_loop, if_neg hlt, hc]
      case pos =>
        have hslice : slice s cur (cur + 1) = [s[cur]] := slice_one s cur hlt
        have hmem : s[cur] ∈ s := List.getElem_mem hlt
        by_cases hA : (s[cur]).toNat < 128
        · have h20 := hplain (s[cur]) hmem hA
          rw [next_loop_step_plain s pos cur fuel hlt
            (by rw [hslice]; simp [strIsAscii, hA])
            (by rw [hslice]; exact c0_find_none_of_ge (s[cur]) h20)
            (by rw [hslice]; exact cfEqb_esc_of_ge (s[cur]) h20)]
          exact ih (cur + 1) (by omega) (by omega) (by omega)
        · rw [next_loop_step_nonascii s pos cur fuel hlt
            (by rw [hslice]; simp [strIsAscii, hA])]
          exact ih (cur + 1) (by omega) (by omega) (by omega)

theorem decode_loop_at_end (s : Str) (pos fuel : Nat) (h : s.length ≤ pos) :
    decode_loop s pos fuel = [] := by
  cases fuel with
  | zero => rfl
  | succ fuel => rw [decode_loop, next_at_end s pos h]

/-- Claim C6 (amended): decoding any non-empty input that contains no ESCAPE
byte and no C0-table byte (every ASCII character is at or above 02/00) yields
exactly one text token holding the whole input.  The empty input instead
decodes to no tokens at all, see the counterexample. -/
theorem C6_amended (s : Str) (hne : s ≠ [])
    (hplain : ∀ c ∈ s, c.toNat < 128 → 0x20 ≤ c.toNat) :
    decode s = [Token.String s] := by
  have hlen : s.length ≠ 0 := by
    intro hz
    exact hne (List.eq_nil_of_length_eq_zero hz)
  have h1 : TokenStream.next s 0 = some (Token.String s, s.length) := by
    rw [TokenStream.next,
      next_loop_all_plain s 0 hplain (s.length + 1) 0 le_rfl (by omega) (by omega)]
    rw [emit_current_string, if_pos (by omega : s.length ≠ 0), slice_zero_length]
  rw [decode, decode_loop, h1]
  dsimp only
  rw [decode_loop_at_end s s.length s.length le_rfl]

/-- Witness for C6 (amended) at the concrete input "Hi". -/
theorem C6_amended_witness :
    decode [chr 0x48, chr 0x69] = [Token.String [chr 0x48, chr 0x69]] :=
  C6_amended [chr 0x48, chr 0x69] (by decide) (by decide)

/- Reduction lemmas for the control-sequence scan. -/

theorem cs_loop_step_param (s : Str) (csStart cur fuel : Nat) (hlt : cur < s.length)
    (p : Char) (hs : slice s cur (cur + 1) = [p])
    (h30 : 0x30 ≤ p.toNat) (h3F : p.toNat ≤ 0x3F)
    (hend : ¬ (cur + 1 = s.length)) :
    control_sequence_loop s csStart cur false (fuel + 1) =
      control_sequence_loop s csStart (cur + 1) false fuel := by
  have h80 : p.toNat < 0x80 := by omega
  have hterm : ¬ (0x40 ≤ p.toNat ∧ p.toNat ≤ 0x7F) := by omega
  have hrange : ¬ (p.toNat < 0x30 ∨ 0x3F < p.toNat) := by omega
  rw [control_sequence_loop, gncb_of_lt s cur hlt, hs]
  simp [byteLen, utf8Len, CONTROL_FUNCTION_LOWER_BOUND, CONTROL_FUNCTION_UPPER_BOUND,
    PARAMETER_LOWER_BOUND, PARAMETER_UPPER_BOUND, h80, hterm, hrange, hend]

theorem cs_loop_step_intermediate (s : Str) (csStart cur fuel : Nat) (hlt : cur < s.length)
    (hs : slice s cur (cur + 1) = [chr 0x20])
    (hend : ¬ (cur + 1 = s.length)) :
    control_sequence_loop s csStart cur false (fuel + 1) =
      control_sequence_loop s csStart (cur + 1) true fuel := by
  have h32 : (chr 0x20).toNat = 32 := by decide
  rw [control_sequence_loop, gncb_of_lt s cur hlt, hs]
  simp [byteLen, utf8Len, CONTROL_FUNCTION_LOWER_BOUND, CONTROL_FUNCTION_UPPER_BOUND,
    PARAMETER_LOWER_BOUND, PARAMETER_UPPER_BOUND, h32, hend]

theorem cs_loop_step_final (s : Str) (csStart cur fuel : Nat) (ib : Bool)
    (hlt : cur < s.length) (f : Char) (hs : slice s cur (cur + 1) = [f])
    (h40 : 0x40 ≤ f.toNat) (h7F : f.toNat ≤ 0x7F) :
    control_sequence_loop s csStart cur ib (fuel + 1) =
      some (if ib then slice s (cur - 1) (cur + 1) else [f],
        if ib then slice s csStart (cur - 1) else slice s csStart cur, cur + 1) := by
  have h80 : f.toNat < 0x80 := by omega
  have hterm : 0x40 ≤ f.toNat ∧ f.toNat ≤ 0x7F := ⟨h40, h7F⟩
  rw [control_sequence_loop, gncb_of_lt s cur hlt, hs]
  simp [byteLen, utf8Len, CONTROL_FUNCTION_LOWER_BOUND, CONTROL_FUNCTION_UPPER_BOUND,
    h80, h40, h7F]

/-- Scanning parameter-range characters advances the control-sequence loop past
them without changing anything else. -/
theorem cs_loop_scan_params (rest : Str) (hrest : rest ≠ []) :
    ∀ (P A : Str) (csStart fuel : Nat),
      (∀ c ∈ P, 0x30 ≤ c.toNat ∧ c.toNat ≤ 0x3F) → P.length ≤ fuel →
      control_sequence_loop (A ++ (P ++ rest)) csStart A.length false fuel =
        control_sequence_loop (A ++ (P ++ rest)) csStart (A.length + P.length) false
          (fuel - P.length) := by
  intro P
  induction P with
  | nil =>
      intro A csStart fuel hP hf
      simp
  | cons p P2 ih =>
      intro A csStart fuel hP hf
      cases fuel with
      | zero => simp at hf
      | succ f =>
          have hrl : 0 < rest.length := List.length_pos.mpr hrest
          have hlt : A.length < (A ++ ((p :: P2) ++ rest)).length := by
            simp only [List.length_append, List.length_cons]
            omega
          have hs : slice (A ++ ((p :: P2) ++ rest)) A.length (A.length + 1) = [p] := by
            have h := slice_append_right A ((p :: P2) ++ rest) 1
            simpa using h
          have hend : ¬ (A.length + 1 = (A ++ ((p :: P2) ++ rest)).length) := by
            simp only [List.length_append, List.length_cons]
            omega
          rw [cs_loop_step_param _ csStart A.length f hlt p hs (hP p (by simp)).1
            (hP p (by simp)).2 hend]
          have hres := ih (A ++ [p]) csStart f
            (fun c hc => hP c (by simp [hc])) (by simpa using hf)
          have hsplit : (A ++ [p]) ++ (P2 ++ rest) = A ++ ((p :: P2) ++ rest) := by simp
          rw [hsplit] at hres
          simp only [List.length_append, List.length_singleton] at hres
          rw [show A.length + (p :: P2).length = A.length + 1 + P2.length by
              simp only [List.length_cons]
              omega,
            show f + 1 - (p :: P2).length = f - P2.length by
              simp only [List.length_cons]
              omega]
          exact hres

/-- A control-sequence scan over parameter text followed by a terminator byte
succeeds with the terminator as value and the parameter text as raw
parameters. -/
theorem cs_loop_success_plain (A P : Str) (f : Char) (fuel : Nat)
    (hP : ∀ c ∈ P, 0x30 ≤ c.toNat ∧ c.toNat ≤ 0x3F)
    (h40 : 0x40 ≤ f.toNat) (h7F : f.toNat ≤ 0x7F)
    (hfuel : P.length < fuel) :
    control_sequence_loop (A ++ (P ++ [f])) A.length A.length false fuel =
      some ([f], P, A.length + P.length + 1) := by
  rw [cs_loop_scan_params [f] (by simp) P A A.length fuel hP (by omega)]
  rcases hfp : fuel - P.length with _ | f2
  · omega
  · have hs : slice (A ++ (P ++ [f])) (A.length + P.length) (A.length + P.length + 1) =
        [f] := by
      have hassoc : A ++ (P ++ [f]) = (A ++ P) ++ [f] := by simp
      rw [hassoc]
      have h := slice_append_right (A ++ P) [f] 1
      simpa using h
    rw [cs_loop_step_final _ A.length (A.length + P.length) f2 false
      (by simp only [List.length_append, List.length_singleton]; omega) f hs h40 h7F]
    have hraw : slice (A ++ (P ++ [f])) A.length (A.length + P.length) = P := by
      have h := slice_append_right A (P ++ [f]) P.length
      rw [List.take_left] at h
      exact h
    simp [hraw]

/-- A control-sequence scan over parameter text, one intermediate byte 02/00 and
a terminator byte succeeds with the two-byte value and the parameter text. -/
theorem cs_loop_success_intermediate (A P : Str) (f : Char) (fuel : Nat)
    (hP : ∀ c ∈ P, 0x30 ≤ c.toNat ∧ c.toNat ≤ 0x3F)
    (h40 : 0x40 ≤ f.toNat) (h7F : f.toNat ≤ 0x7F)
    (hfuel : P.length + 1 < fuel) :
    control_sequence_loop (A ++ (P ++ [chr 0x20, f])) A.length A.length false fuel =
      some ([chr 0x20, f], P, A.length + P.length + 1 + 1) := by
  rw [cs_loop_scan_params [chr 0x20, f] (by simp) P A A.length fuel hP (by omega)]
  rcases hfp : fuel - P.length with _ | f2
  · omega
  · have hs1 : slice (A ++ (P ++ [chr 0x20, f])) (A.length + P.length)
        (A.length + P.length + 1) = [chr 0x20] := by
      have hassoc : A ++ (P ++ [chr 0x20, f]) = (A ++ P) ++ [chr 0x20, f] := by simp
      rw [hassoc]
      have h := slice_append_right (A ++ P) [chr 0x20, f] 1
      simpa using h
    have hend1 : ¬ (A.length + P.length + 1 = (A ++ (P ++ [chr 0x20, f])).length) := by
      simp only [List.length_append, List.length_cons, List.length_nil]
      omega
    rw [cs_loop_step_intermediate _ A.length (A.length + P.length) f2
      (by simp only [List.length_append, List.length_cons, List.length_nil]; omega) hs1 hend1]
    rcases f2 with _ | f3
    · omega
    · have hs2 : slice (A ++ (P ++ [chr 0x20, f])) (A.length + P.length + 1)
          (A.length + P.length + 1 + 1) = [f] := by
        have hassoc : A ++ (P ++ [chr 0x20, f]) = ((A ++ P) ++ [chr 0x20]) ++ [f] := by simp
        rw [hassoc]
        have h := slice_append_right ((A ++ P) ++ [chr 0x20]) [f] 1
        simpa [Nat.add_assoc] using h
      rw [cs_loop_step_final _ A.length (A.length + P.length + 1) f3 true
        (by simp only [List.length_append, List.length_cons, List.length_nil]; omega) f hs2
        h40 h7F]
      have hidx : A.length + P.length + 1 - 1 = A.length + P.length := by omega
      rw [hidx]
      have hvalue : slice (A ++ (P ++ [chr 0x20, f])) (A.length + P.length)
          (A.length + P.length + 1 + 1) = [chr 0x20, f] := by
        have hassoc : A ++ (P ++ [chr 0x20, f]) = (A ++ P) ++ [chr 0x20, f] := by simp
        rw [hassoc]
        have h := slice_append_right (A ++ P) [chr 0x20, f] 2
        simpa [Nat.add_assoc] using h
      have hraw : slice (A ++ (P ++ [chr 0x20, f])) A.length (A.length + P.length) = P := by
        have h := slice_append_right A (P ++ [chr 0x20, f]) P.length
        rw [List.take_left] at h
        exact h
      simp [hvalue, hraw]

/- Splitting on the parameter separator is a left inverse of joining. -/

theorem splitSemi_no_semi (p : Str) (h : ∀ c ∈ p, c ≠ chr 0x3B) : splitSemi p = [p] := by
  induction p with
  | nil => rfl
  | cons c rest ih =>
      rw [splitSemi, if_neg (by simpa [PARAMETER_SEPARATOR] using h c (by simp)),
        ih (fun d hd => h d (by simp [hd]))]

theorem splitSemi_append (p t : Str) (h : ∀ c ∈ p, c ≠ chr 0x3B) :
    splitSemi (p ++ chr 0x3B :: t) = p :: splitSemi t := by
  induction p with
  | nil =>
      rw [List.nil_append, splitSemi, if_pos (by simp [PARAMETER_SEPARATOR])]
  | cons c p2 ih =>
      rw [List.cons_append, splitSemi,
        if_neg (by simpa [PARAMETER_SEPARATOR] using h c (by simp)),
        ih (fun d hd => h d (by simp [hd]))]

theorem splitSemi_joinSemi (ps : List Str) (hps : ps ≠ [])
    (h : ∀ p ∈ ps, ∀ c ∈ p, c ≠ chr 0x3B) : splitSemi (joinSemi ps) = ps := by
  induction ps with
  | nil => exact absurd rfl hps
  | cons p ps2 ih =>
      cases ps2 with
      | nil => exact splitSemi_no_semi p (h p (by simp))
      | cons q qs =>
          have hj : joinSemi (p :: q :: qs) = p ++ chr 0x3B :: joinSemi (q :: qs) := rfl
          rw [hj, splitSemi_append p _ (h p (by simp)),
            ih (by simp) (fun r hr c hc => h r (by simp [hr]) c hc)]

theorem joinSemi_params_range (ps : List Str)
    (h : ∀ p ∈ ps, ∀ c ∈ p, 0x30 ≤ c.toNat ∧ c.toNat ≤ 0x3F) :
    ∀ c ∈ joinSemi ps, 0x30 ≤ c.toNat ∧ c.toNat ≤ 0x3F := by
  induction ps with
  | nil =>
      intro c hc
      simp [joinSemi] at hc
  | cons p ps2 ih =>
      cases ps2 with
      | nil =>
          intro c hc
          exact h p (by simp) c (by simpa [joinSemi] using hc)
      | cons q qs =>
          intro c hc
          have hj : joinSemi (p :: q :: qs) = p ++ chr 0x3B :: joinSemi (q :: qs) := rfl
          rw [hj] at hc
          rcases List.mem_append.mp hc with hc1 | hc2
          · exact h p (by simp) c hc1
          · rcases List.mem_cons.mp hc2 with hc3 | hc4
            · subst hc3
              constructor <;> decide
            · exact ih (fun r hr d hd => h r (by simp [hr]) d hd) c hc4

/-- Decoding the rendering of any control sequence with a well-formed
identifier, a non-empty parameter list and parameter-range, separator-free
entries recovers exactly the original value as a single function token. -/
theorem decode_render_sequence (v : Str) (ps : List Str)
    (hv : goodSequenceValue v = true)
    (hps : ps ≠ [])
    (hent : ∀ p ∈ ps, ∀ c ∈ p, 0x30 ≤ c.toNat ∧ c.toNat ≤ 0x3F ∧ c ≠ chr 0x3B) :
    decode (render (ControlFunction.new_sequence v ps)) =
      [Token.ControlFunction (ControlFunction.new_sequence v ps)] := by
  have hrender : render (ControlFunction.new_sequence v ps) =
      [chr 0x1B, chr 0x5B] ++ (joinSemi ps ++ v) := by
    simp [render, ControlFunction.new_sequence, format_parameters, ESC, CSI,
      ControlFunction.new_c0, ControlFunction.new_c1]
  have hPrange : ∀ c ∈ joinSemi ps, 0x30 ≤ c.toNat ∧ c.toNat ≤ 0x3F :=
    joinSemi_params_range ps (fun p hp c hc => ⟨(hent p hp c hc).1, (hent p hp c hc).2.1⟩)
  have hsplit : splitSemi (joinSemi ps) = ps :=
    splitSemi_joinSemi ps hps (fun p hp c hc => (hent p hp c hc).2.2)
  rw [hrender]
  rcases v with _ | ⟨a, _ | ⟨b, _ | ⟨c0, vrest⟩⟩⟩
  · simp [goodSequenceValue] at hv
  case cons.cons.cons => simp [goodSequenceValue] at hv
  · -- v = [a], a single terminator byte
    simp only [goodSequenceValue, Bool.and_eq_true, decide_eq_true_eq] at hv
    set s : Str := [chr 0x1B, chr 0x5B] ++ (joinSemi ps ++ [a]) with hsdef
    have hlen : s.length = 2 + (joinSemi ps).length + 1 := by
      rw [hsdef]
      simp
      omega
    have h01 : slice s 0 1 = [chr 0x1B] := by
      rw [hsdef]
      simp [slice]
    have h12 : slice s 1 2 = [chr 0x5B] := by
      rw [hsdef]
      simp [slice]
    have h02 : slice s 0 2 = [chr 0x1B, chr 0x5B] := by
      rw [hsdef]
      simp [slice]
    have hCs : control_sequence_loop s 2 2 false (s.length + 1) =
        some ([a], joinSemi ps, s.length) := by
      have h := cs_loop_success_plain [chr 0x1B, chr 0x5B] (joinSemi ps) a (s.length + 1)
        hPrange hv.1 hv.2 (by omega)
      simpa [← hsdef, hlen] using h
    have hnext : TokenStream.next s 0 = some (Token.ControlFunction
        (ControlFunction.new_sequence [a] (splitSemi (joinSemi ps))), s.length) := by
      rw [TokenStream.next]
      rw [next_loop_step_csi s 0 0 s.length (by omega) [a] (joinSemi ps) s.length
        (by rw [show (0:Nat) + 1 = 1 from rfl, h01]; decide)
        (by rw [show (0:Nat) + 1 = 1 from rfl, h01]; decide)
        (by rw [show (0:Nat) + 1 = 1 from rfl, h01]; decide)
        (by rw [show (0:Nat) + 1 = 1 from rfl, show (0:Nat) + 2 = 2 from rfl, h12]; decide)
        (by rw [show (0:Nat) + 2 = 2 from rfl, h02]; decide)
        (by rw [show (0:Nat) + 2 = 2 from rfl, h02]; decide)
        (by rw [show (0:Nat) + 2 = 2 from rfl, h02]; decide)
        (by rw [show (0:Nat) + 2 = 2 from rfl]; exact hCs)]
      simp [emitOrFunction, emit_current_string]
    rw [decode, decode_loop, hnext]
    dsimp only
    rw [decode_loop_at_end s s.length s.length le_rfl, hsplit]
  · -- v = [a, b], intermediate byte then terminator byte
    simp only [goodSequenceValue, Bool.and_eq_true, decide_eq_true_eq] at hv
    obtain ⟨ha, hb1, hb2⟩ := hv
    subst ha
    set s : Str := [chr 0x1B, chr 0x5B] ++ (joinSemi ps ++ [chr 0x20, b]) with hsdef
    have hlen : s.length = 2 + (joinSemi ps).length + 2 := by
      rw [hsdef]
      simp
      omega
    have h01 : slice s 0 1 = [chr 0x1B] := by
      rw [hsdef]
      simp [slice]
    have h12 : slice s 1 2 = [chr 0x5B] := by
      rw [hsdef]
      simp [slice]
    have h02 : slice s 0 2 = [chr 0x1B, chr 0x5B] := by
      rw [hsdef]
      simp [slice]
    have hCs : control_sequence_loop s 2 2 false (s.length + 1) =
        some ([chr 0x20, b], joinSemi ps, s.length) := by
      have h := cs_loop_success_intermediate [chr 0x1B, chr 0x5B] (joinSemi ps) b
        (s.length + 1) hPrange hb1 hb2 (by omega)
      simpa [← hsdef, hlen] using h
    have hnext : TokenStream.next s 0 = some (Token.ControlFunction
        (ControlFunction.new_sequence [chr 0x20, b] (splitSemi (joinSemi ps))),
        s.length) := by
      rw [TokenStream.next]
      rw [next_loop_step_csi s 0 0 s.length (by omega) [chr 0x20, b] (joinSemi ps) s.length
        (by rw [show (0:Nat) + 1 = 1 from rfl, h01]; decide)
        (by rw [show (0:Nat) + 1 = 1 from rfl, h01]; decide)
        (by rw [show (0:Nat) + 1 = 1 from rfl, h01]; decide)
        (by rw [show (0:Nat) + 1 = 1 from rfl, show (0:Nat) + 2 = 2 from rfl, h12]; decide)
        (by rw [show (0:Nat) + 2 = 2 from rfl, h02]; decide)
        (by rw [show (0:Nat) + 2 = 2 from rfl, h02]; decide)
        (by rw [show (0:Nat) + 2 = 2 from rfl, h02]; decide)
        (by rw [show (0:Nat) + 2 = 2 from rfl]; exact hCs)]
      simp [emitOrFunction, emit_current_string]
    rw [decode, decode_loop, hnext]
    dsimp only
    rw [decode_loop_at_end s s.length s.length le_rfl, hsplit]

theorem digitChar_range (n : Nat) (h : n < 10) :
    0x30 ≤ (digitChar n).toNat ∧ (digitChar n).toNat ≤ 0x39 := by
  interval_cases n <;> decide

theorem natToStringAux_digits :
    ∀ fuel n, ∀ c ∈ natToStringAux fuel n, 0x30 ≤ c.toNat ∧ c.toNat ≤ 0x39 := by
  intro fuel
  induction fuel with
  | zero =>
      intro n c hc
      simp [natToStringAux] at hc
  | succ fuel ih =>
      intro n c hc
      rw [natToStringAux] at hc
      by_cases h10 : n < 10
      · rw [if_pos h10] at hc
        simp at hc
        subst hc
        exact digitChar_range n h10
      · rw [if_neg h10] at hc
        rcases List.mem_append.mp hc with h1 | h2
        · exact ih (n / 10) c h1
        · have hm : n % 10 < 10 := Nat.mod_lt _ (by norm_num)
          simp at h2
          subst h2
          exact digitChar_range (n % 10) hm


theorem natToString_digits (n : Nat) :
    ∀ c ∈ natToString n, 0x30 ≤ c.toNat ∧ c.toNat ≤ 0x39 :=
  fun c hc => natToStringAux_digits (n + 1) n c hc

theorem natToString_ne_nil (n : Nat) : natToString n ≠ [] := by
  rw [natToString, natToStringAux]
  split_ifs <;> simp

/-- Decimal-digit parameter entries are parameter-range and separator-free. -/
theorem digit_entry_ok (p : Str) (hdig : ∀ c ∈ p, 0x30 ≤ c.toNat ∧ c.toNat ≤ 0x39) :
    ∀ c ∈ p, 0x30 ≤ c.toNat ∧ c.toNat ≤ 0x3F ∧ c ≠ chr 0x3B := by
  intro c hc
  have h := hdig c hc
  refine ⟨h.1, by omega, ?_⟩
  intro heq
  have h59 : (chr 0x3B).toNat = 59 := by decide
  rw [heq] at h
  omega

/-- Rust `CUP(n, m)` round-trips through the codec for all arguments. -/
theorem decode_render_CUP (n m : Option Nat) :
    decode (render (CUP n m)) = [Token.ControlFunction (CUP n m)] := by
  apply decode_render_sequence
  · decide
  · simp
  · intro p hp c hc
    simp only [List.mem_cons, List.not_mem_nil, or_false, List.mem_singleton] at hp
    rcases hp with rfl | rfl
    · exact digit_entry_ok _ (natToString_digits _) c hc
    · exact digit_entry_ok _ (natToString_digits _) c hc

/-- Rust `RM(v)` round-trips through the codec for every non-empty mode list. -/
theorem decode_render_RM (v : List Nat) (hne : v ≠ []) :
    decode (render (RM v)) = [Token.ControlFunction (RM v)] := by
  apply decode_render_sequence
  · decide
  · simpa using hne
  · intro p hp c hc
    rcases List.mem_map.mp hp with ⟨k, -, rfl⟩
    exact digit_entry_ok _ (natToString_digits k) c hc

/-- Claim C2 (amended): the encode/decode round trip holds for every fixed
catalog constant except CSI itself, and for every control sequence whose
identifier is a terminator byte optionally preceded by the intermediate byte
and whose parameter list is non-empty with parameter-range, separator-free
entries; in particular for `CUP` with any arguments and for the variadic `RM`
with any non-empty argument list.  CSI and variadic builders applied to empty
vectors fail the round trip, see the counterexample. -/
theorem C2_amended :
    (∀ cf ∈ STANDARD_CODES, cf ≠ CSI → decode (render cf) = [Token.ControlFunction cf]) ∧
    (∀ v ps, goodSequenceValue v = true → ps ≠ [] →
      (∀ p ∈ ps, ∀ c ∈ p, 0x30 ≤ c.toNat ∧ c.toNat ≤ 0x3F ∧ c ≠ chr 0x3B) →
      decode (render (ControlFunction.new_sequence v ps)) =
        [Token.ControlFunction (ControlFunction.new_sequence v ps)]) ∧
    (∀ n m, decode (render (CUP n m)) = [Token.ControlFunction (CUP n m)]) ∧
    (∀ v, v ≠ [] → decode (render (RM v)) = [Token.ControlFunction (RM v)]) :=
  ⟨by decide, decode_render_sequence, decode_render_CUP, decode_render_RM⟩

/-- Witness for C2 (amended): the C1 constant NEL and the cursor-position
example CUP(5, 13) both round-trip. -/
theorem C2_amended_witness :
    decode (render NEL) = [Token.ControlFunction NEL] ∧
    decode (render (CUP (some 5) (some 13))) =
      [Token.ControlFunction (CUP (some 5) (some 13))] :=
  ⟨C2_amended.1 NEL (by decide) (by decide), C2_amended.2.2.1 (some 5) (some 13)⟩

/-- Claim C1 (amended): when the control-sequence scan aborts on a non-ASCII
character right after the introducer, no `Function(ESC)` token is emitted; the
ESCAPE byte and the introducer remain part of the text, and decoding
ESCAPE + 05/11 + <any single non-ASCII character> yields exactly one text
token holding the whole three-character input. -/
theorem C1_amended (c : Char) (hc : 128 ≤ c.toNat) :
    decode [chr 0x1B, chr 0x5B, c] = [Token.String [chr 0x1B, chr 0x5B, c]] := by
  have hutf : byteLen [c] ≠ 1 := by
    have h80 : ¬ c.toNat < 0x80 := by omega
    simp only [byteLen, List.map_cons, List.map_nil, List.sum_cons, List.sum_nil, utf8Len,
      if_neg h80]
    split_ifs <;> omega
  have hna : strIsAscii [c] = false := by
    simp [strIsAscii]
    omega
  have hCs : control_sequence_loop [chr 0x1B, chr 0x5B, c] 2 2 false 4 = none := by
    rw [control_sequence_loop,
      gncb_of_lt [chr 0x1B, chr 0x5B, c] 2 (by simp),
      show slice [chr 0x1B, chr 0x5B, c] 2 3 = [c] from rfl, if_pos hutf]
  have h1 : TokenStream.next [chr 0x1B, chr 0x5B, c] 0 =
      some (Token.String [chr 0x1B, chr 0x5B, c], 3) := by
    show next_loop [chr 0x1B, chr 0x5B, c] 0 0 4 = _
    rw [next_loop_step_csi_abort [chr 0x1B, chr 0x5B, c] 0 0 3 (by simp)
      rfl rfl rfl rfl rfl rfl rfl hCs]
    rw [next_loop_step_plain [chr 0x1B, chr 0x5B, c] 0 1 2 (by simp)
      rfl rfl rfl]
    rw [next_loop_step_nonascii [chr 0x1B, chr 0x5B, c] 0 2 1 (by simp) hna]
    rfl
  rw [decode]
  show decode_loop [chr 0x1B, chr 0x5B, c] 0 4 = _
  rw [decode_loop, h1]
  dsimp only
  rw [decode_loop_at_end [chr 0x1B, chr 0x5B, c] 3 3 (by simp)]

/-- Witness for C1 (amended) at the concrete non-ASCII character U+00E4. -/
theorem C1_amended_witness :
    decode [chr 0x1B, chr 0x5B, chr 0xE4] =
      [Token.String [chr 0x1B, chr 0x5B, chr 0xE4]] :=
  C1_amended (chr 0xE4) (by decide)

theorem splitSemi_ne_nil (raw : Str) : splitSemi raw ≠ [] := by
  cases raw with
  | nil => simp [splitSemi]
  | cons c rest =>
      rw [splitSemi]
      split_ifs
      · simp
      · rcases h : splitSemi rest with _ | ⟨p, ps⟩ <;> simp

theorem emitOrFunction_function (s : Str) (pos cur : Nat) (tok0 : Token) (newPos : Nat)
    (cf : ControlFunction) (p : Nat)
    (h : emitOrFunction s pos cur tok0 newPos = (Token.ControlFunction cf, p)) :
    tok0 = Token.ControlFunction cf := by
  rcases emitOrFunction_cases s pos cur tok0 newPos with ⟨he, -⟩ | ⟨he, -⟩
  · rw [he] at h
    exact absurd (congrArg Prod.fst h) (by simp)
  · rw [he] at h
    exact congrArg Prod.fst h

/-- Every function token the scanner can emit is a catalog C0, C1 or
independent code, the standalone ESC, or a control sequence built by
splitting raw parameter text on the separator. -/
theorem next_loop_function_tokens (s : Str) (pos : Nat) :
    ∀ fuel cur cf p, next_loop s pos cur fuel = some (Token.ControlFunction cf, p) →
      cf ∈ C0_CODES ∨ cf = ESC ∨ cf ∈ C1_CODES ∨ cf ∈ INDEPDENDENT_CODES ∨
      ∃ v raw, cf = ControlFunction.new_sequence v (splitSemi raw) := by
  intro fuel
  induction fuel with
  | zero =>
      intro cur cf p h
      rw [next_loop] at h
      by_cases hlt : cur < s.length
      · rw [if_pos hlt] at h
        simp at h
      · rw [if_neg hlt, emit_current_string] at h
        by_cases hne : cur ≠ pos
        · rw [if_pos hne, Option.some_inj] at h
          exact absurd (congrArg Prod.fst h) (by simp)
        · rw [if_neg hne] at h
          simp at h
  | succ fuel ih =>
      intro cur cf p h
      by_cases hlt : cur < s.length
      case neg =>
        rw [next_loop, if_neg hlt, emit_current_string] at h
        by_cases hne : cur ≠ pos
        · rw [if_pos hne, Option.some_inj] at h
          exact absurd (congrArg Prod.fst h) (by simp)
        · rw [if_neg hne] at h
          simp at h
      case pos =>
        by_cases hA : strIsAscii (slice s cur (cur + 1)) = true
        case neg =>
          rw [next_loop_step_nonascii s pos cur fuel hlt (by simpa using hA)] at h
          exact ih (cur + 1) cf p h
        case pos =>
          rcases hC0 : C0_CODES.find? (fun cd => cfEqb cd (slice s cur (cur + 1))) with _ | code
          case some =>
            rw [next_loop_step_c0 s pos cur fuel hlt code hA hC0, Option.some_inj] at h
            have hf := emitOrFunction_function _ _ _ _ _ _ _ h
            injection hf with hcf
            exact Or.inl (hcf ▸ List.mem_of_find?_eq_some hC0)
          case none =>
            by_cases hEsc : cfEqb ESC (slice s cur (cur + 1)) = true
            case neg =>
              rw [next_loop_step_plain s pos cur fuel hlt hA hC0 (by simpa using hEsc)] at h
              exact ih (cur + 1) cf p h
            case pos =>
              by_cases hEnd : s.length = cur + 1
              case pos =>
                rw [next_loop_step_esc_end s pos cur fuel hlt hA hC0 hEsc hEnd,
                  Option.some_inj] at h
                have hf := emitOrFunction_function _ _ _ _ _ _ _ h
                injection hf with hcf
                exact Or.inr (Or.inl hcf.symm)
              case neg =>
                have hlt2 : cur + 1 < s.length := by omega
                by_cases hA2 : strIsAscii (slice s (cur + 1) (cur + 2)) = true
                case neg =>
                  rw [next_loop_step_esc_nonascii s pos cur fuel hlt2 hA hC0 hEsc
                    (by simpa using hA2), Option.some_inj] at h
                  have hf := emitOrFunction_function _ _ _ _ _ _ _ h
                  injection hf with hcf
                  exact Or.inr (Or.inl hcf.symm)
                case pos =>
                  rcases hC1 : C1_CODES.find? (fun cd => cfEqb cd (slice s cur (cur + 2))) with
                    _ | code1
                  case some =>
                    rw [next_loop_step_c1 s pos cur fuel hlt2 code1 hA hC0 hEsc hA2 hC1,
                      Option.some_inj] at h
                    have hf := emitOrFunction_function _ _ _ _ _ _ _ h
                    injection hf with hcf
                    exact Or.inr (Or.inr (Or.inl (hcf ▸ List.mem_of_find?_eq_some hC1)))
                  case none =>
                    rcases hInd : INDEPDENDENT_CODES.find?
                        (fun cd => cfEqb cd (slice s cur (cur + 2))) with _ | code2
                    case some =>
                      rw [next_loop_step_independent s pos cur fuel hlt2 code2 hA hC0 hEsc hA2
                        hC1 hInd, Option.some_inj] at h
                      have hf := emitOrFunction_function _ _ _ _ _ _ _ h
                      injection hf with hcf
                      exact Or.inr (Or.inr (Or.inr (Or.inl
                        (hcf ▸ List.mem_of_find?_eq_some hInd))))
                    case none =>
                      by_cases hCsi : cfEqb CSI (slice s cur (cur + 2)) = true
                      case neg =>
                        rw [next_loop_step_esc_other s pos cur fuel hlt2 hA hC0 hEsc hA2 hC1
                          hInd (by simpa using hCsi), Option.some_inj] at h
                        have hf := emitOrFunction_function _ _ _ _ _ _ _ h
                        injection hf with hcf
                        exact Or.inr (Or.inl hcf.symm)
                      case pos =>
                        rcases hCs : control_sequence_loop s (cur + 2) (cur + 2) false
                            (s.length + 1) with _ | ⟨v, raw, e⟩
                        case none =>
                          rw [next_loop_step_csi_abort s pos cur fuel hlt2 hA hC0 hEsc hA2 hC1
                            hInd hCsi hCs] at h
                          exact ih (cur + 1) cf p h
                        case some =>
                          rw [next_loop_step_csi s pos cur fuel hlt2 v raw e hA hC0 hEsc hA2
                            hC1 hInd hCsi hCs, Option.some_inj] at h
                          have hf := emitOrFunction_function _ _ _ _ _ _ _ h
                          injection hf with hcf
                          exact Or.inr (Or.inr (Or.inr (Or.inr ⟨v, raw, hcf.symm⟩)))

theorem decode_function_tokens (s : Str) :
    ∀ fuel pos cf, Token.ControlFunction cf ∈ decode_loop s pos fuel →
      cf ∈ C0_CODES ∨ cf = ESC ∨ cf ∈ C1_CODES ∨ cf ∈ INDEPDENDENT_CODES ∨
      ∃ v raw, cf = ControlFunction.new_sequence v (splitSemi raw) := by
  intro fuel
  induction fuel with
  | zero =>
      intro pos cf h
      simp [decode_loop] at h
  | succ fuel ih =>
      intro pos cf h
      rw [decode_loop] at h
      rcases hn : TokenStream.next s pos with _ | ⟨tok, p⟩
      · rw [hn] at h
        simp at h
      · rw [hn] at h
        rcases List.mem_cons.mp h with h1 | h2
        · exact next_loop_function_tokens s pos (s.length + 1) pos cf p (h1 ▸ hn)
        · exact ih p cf h2

theorem c1_codes_type :
    ∀ cd ∈ C1_CODES, cd.function_type = ControlFunctionType.C1 := by
  decide

theorem independent_codes_type :
    ∀ cd ∈ INDEPDENDENT_CODES,
      cd.function_type = ControlFunctionType.IndependentControlFunction := by
  decide

/-- Claim C9: every control-sequence function token the decoder emits carries a
parameter list obtained by splitting the raw parameter text on the separator
(preserving empty fields), hence never the empty list; in particular a
control sequence with no parameter bytes decodes to the one-element parameter
list holding a single empty string. -/
theorem C9_parameters :
    (∀ s cf, Token.ControlFunction cf ∈ decode s →
      cf.function_type = ControlFunctionType.ControlSequence →
      cf.parameters ≠ [] ∧ ∃ raw, cf.parameters = splitSemi raw) ∧
    decode [chr 0x1B, chr 0x5B, chr 0x48] =
      [Token.ControlFunction (ControlFunction.new_sequence [chr 0x48] [[]])] := by
  constructor
  · intro s cf hmem htype
    rcases decode_function_tokens s (s.length + 1) 0 cf hmem with h | h | h | h | ⟨v, raw, rfl⟩
    · rw [(c0_codes_prop cf h).1] at htype
      simp at htype
    · rw [h] at htype
      simp [ESC, ControlFunction.new_c0] at htype
    · rw [c1_codes_type cf h] at htype
      simp at htype
    · rw [independent_codes_type cf h] at htype
      simp at htype
    · exact ⟨splitSemi_ne_nil raw, raw, rfl⟩
  · decide

/-- Witness for C9 on the input ESCAPE 05/11 03/11 04/08 (an empty and a
second empty parameter field). -/
theorem C9_parameters_witness :
    (ControlFunction.new_sequence [chr 0x48] [[], []]).parameters ≠ [] ∧
    ∃ raw, (ControlFunction.new_sequence [chr 0x48] [[], []]).parameters = splitSemi raw :=
  C9_parameters.1 [chr 0x1B, chr 0x5B, chr 0x3B, chr 0x48]
    (ControlFunction.new_sequence [chr 0x48] [[], []]) (by decide) (by decide)

/-- When the scanner emits a text token, either the input is exhausted at the
token's end, or the very next iterator step re-finds and emits the control
function that delimited the text. -/
theorem next_loop_string_next (s : Str) (pos : Nat) :
    ∀ fuel cur, pos ≤ cur → cur ≤ s.length → s.length - cur ≤ fuel →
      ∀ t p, next_loop s pos cur fuel = some (Token.String t, p) →
        p = s.length ∨ ∃ cf q, TokenStream.next s p = some (Token.ControlFunction cf, q) := by
  have hself : ∀ (tok0 : Token) (newPos : Nat) (cur : Nat),
      emitOrFunction s cur cur tok0 newPos = (tok0, newPos) := by
    intro tok0 newPos cur
    simp [emitOrFunction, emit_current_string]
  have hEmit : ∀ (cur : Nat) (cf0 : ControlFunction) (newPos : Nat), pos ≤ cur →
      (TokenStream.next s cur = some (Token.ControlFunction cf0, newPos)) →
      ∀ t p, emitOrFunction s pos cur (Token.ControlFunction cf0) newPos =
        (Token.String t, p) →
      p = s.length ∨ ∃ cf q, TokenStream.next s p = some (Token.ControlFunction cf, q) := by
    intro cur cf0 newPos hpc hnext t p hep
    rcases emitOrFunction_cases s pos cur (Token.ControlFunction cf0) newPos with
      ⟨he, hne⟩ | ⟨he, heq⟩
    · rw [he] at hep
      injection hep with h1 h2
      right
      exact ⟨cf0, newPos, h2 ▸ hnext⟩
    · rw [he] at hep
      injection hep with h1 h2
      simp at h1
  intro fuel
  induction fuel with
  | zero =>
      intro cur h1 h2 h3 t p h
      have hc : cur = s.length := by omega
      rw [next_loop, if_neg (by omega : ¬ cur < s.length), emit_current_string] at h
      by_cases hne : cur ≠ pos
      · rw [if_pos hne, Option.some_inj] at h
        injection h with ht hp
        left
        omega
      · rw [if_neg hne] at h
        simp at h
  | succ fuel ih =>
      intro cur h1 h2 h3 t p h
      by_cases hlt : cur < s.length
      case neg =>
        have hc : cur = s.length := by omega
        rw [next_loop, if_neg hlt, emit_current_string] at h
        by_cases hne : cur ≠ pos
        · rw [if_pos hne, Option.some_inj] at h
          injection h with ht hp
          left
          omega
        · rw [if_neg hne] at h
          simp at h
      case pos =>
        by_cases hA : strIsAscii (slice s cur (cur + 1)) = true
        case neg =>
          rw [next_loop_step_nonascii s pos cur fuel hlt (by simpa using hA)] at h
          exact ih (cur + 1) (by omega) (by omega) (by omega) t p h
        case pos =>
          rcases hC0 : C0_CODES.find? (fun cd => cfEqb cd (slice s cur (cur + 1))) with _ | code
          case some =>
            rw [next_loop_step_c0 s pos cur fuel hlt code hA hC0, Option.some_inj] at h
            refine hEmit cur code (cur + 1) h1 ?_ t p h
            rw [TokenStream.next, next_loop_step_c0 s cur cur s.length hlt code hA hC0, hself]
          case none =>
            by_cases hEsc : cfEqb ESC (slice s cur (cur + 1)) = true
            case neg =>
              rw [next_loop_step_plain s pos cur fuel hlt hA hC0 (by simpa using hEsc)] at h
              exact ih (cur + 1) (by omega) (by omega) (by omega) t p h
            case pos =>
              by_cases hEnd : s.length = cur + 1
              case pos =>
                rw [next_loop_step_esc_end s pos cur fuel hlt hA hC0 hEsc hEnd,
                  Option.some_inj] at h
                refine hEmit cur ESC (cur + 1) h1 ?_ t p h
                rw [TokenStream.next, next_loop_step_esc_end s cur cur s.length hlt hA hC0 hEsc
                  hEnd, hself]
              case neg =>
                have hlt2 : cur + 1 < s.length := by omega
                by_cases hA2 : strIsAscii (slice s (cur + 1) (cur + 2)) = true
                case neg =>
                  rw [next_loop_step_esc_nonascii s pos cur fuel hlt2 hA hC0 hEsc
                    (by simpa using hA2), Option.some_inj] at h
                  refine hEmit cur ESC (cur + 1) h1 ?_ t p h
                  rw [TokenStream.next, next_loop_step_esc_nonascii s cur cur s.length hlt2 hA
                    hC0 hEsc (by simpa using hA2), hself]
                case pos =>
                  rcases hC1 : C1_CODES.find? (fun cd => cfEqb cd (slice s cur (cur + 2))) with
                    _ | code1
                  case some =>
                    rw [next_loop_step_c1 s pos cur fuel hlt2 code1 hA hC0 hEsc hA2 hC1,
                      Option.some_inj] at h
                    refine hEmit cur code1 (cur + 2) h1 ?_ t p h
                    rw [TokenStream.next, next_loop_step_c1 s cur cur s.length hlt2 code1 hA
                      hC0 hEsc hA2 hC1, hself]
                  case none =>
                    rcases hInd : INDEPDENDENT_CODES.find?
                        (fun cd => cfEqb cd (slice s cur (cur + 2))) with _ | code2
                    case some =>
                      rw [next_loop_step_independent s pos cur fuel hlt2 code2 hA hC0 hEsc hA2
                        hC1 hInd, Option.some_inj] at h
                      refine hEmit cur code2 (cur + 2) h1 ?_ t p h
                      rw [TokenStream.next, next_loop_step_independent s cur cur s.length hlt2
                        code2 hA hC0 hEsc hA2 hC1 hInd, hself]
                    case none =>
                      by_cases hCsi : cfEqb CSI (slice s cur (cur + 2)) = true
                      case neg =>
                        rw [next_loop_step_esc_other s pos cur fuel hlt2 hA hC0 hEsc hA2 hC1
                          hInd (by simpa using hCsi), Option.some_inj] at h
                        refine hEmit cur ESC (cur + 1) h1 ?_ t p h
                        rw [TokenStream.next, next_loop_step_esc_other s cur cur s.length hlt2
                          hA hC0 hEsc hA2 hC1 hInd (by simpa using hCsi), hself]
                      case pos =>
                        rcases hCs : control_sequence_loop s (cur + 2) (cur + 2) false
                            (s.length + 1) with _ | ⟨v, raw, e⟩
                        case none =>
                          rw [next_loop_step_csi_abort s pos cur fuel hlt2 hA hC0 hEsc hA2 hC1
                            hInd hCsi hCs] at h
                          exact ih (cur + 1) (by omega) (by omega) (by omega) t p h
                        case some =>
                          rw [next_loop_step_csi s pos cur fuel hlt2 v raw e hA hC0 hEsc hA2
                            hC1 hInd hCsi hCs, Option.some_inj] at h
                          refine hEmit cur
                            (ControlFunction.new_sequence v (splitSemi raw)) e h1 ?_ t p h
                          rw [TokenStream.next, next_loop_step_csi s cur cur s.length hlt2 v
                            raw e hA hC0 hEsc hA2 hC1 hInd hCsi hCs, hself]

theorem decode_loop_textOk (s : Str) :
    ∀ fuel pos, pos ≤ s.length → textOk (decode_loop s pos fuel) = true := by
  intro fuel
  induction fuel with
  | zero =>
      intro pos h1
      simp [decode_loop, textOk]
  | succ fuel ih =>
      intro pos h1
      rw [decode_loop]
      rcases h : TokenStream.next s pos with _ | ⟨tok, p⟩
      · simp [textOk]
      · dsimp only
        obtain ⟨ha, hb, hstr⟩ := next_advances s pos tok p h1 h
        cases tok with
        | ControlFunction cf =>
            show textOk (decode_loop s p fuel) = true
            exact ih p (by omega)
        | String t =>
            have ht : t = slice s pos p := hstr t rfl
            have htne : ¬ t.isEmpty = true := by
              rw [ht, List.isEmpty_iff]
              exact slice_ne_nil s pos p ha hb
            rcases next_loop_string_next s pos (s.length + 1) pos le_rfl h1 (by omega) t p h
              with hpl | ⟨cf, q, hq⟩
            · have hrest : decode_loop s p fuel = [] := by
                cases fuel with
                | zero => rfl
                | succ fuel2 => rw [decode_loop, next_at_end s p (by omega)]
              rw [hrest]
              simp [textOk, htne]
            · have hpok := ih p (by omega)
              cases fuel with
              | zero => simp [decode_loop, textOk, htne]
              | succ fuel2 =>
                  rw [decode_loop, hq]
                  rw [decode_loop, hq] at hpok
                  dsimp only at hpok ⊢
                  show (!t.isEmpty && textOk (Token.ControlFunction cf ::
                    decode_loop s q fuel2)) = true
                  rw [hpok]
                  simp [htne]

/-- Claim C10: the decoder never emits an empty text token, and never two text
tokens in a row: every text token is non-empty, and between any two text
tokens there is at least one function token. -/
theorem C10_text_tokens (s : Str) : textOk (decode s) = true :=
  decode_loop_textOk s (s.length + 1) 0 (by omega)

/-- Claim C7 (amended): for every well-formed value and every string that does
not hit the panicking byte-slice (a C1 or independent value compared against a
two-byte string that is a single two-byte character), the string-comparison
adapter terminates and returns true exactly when the string is the canonical
rendering of the value.  On the panicking shape the adapter does not return,
see the counterexample. -/
theorem C7_amended (cf : ControlFunction) (s : Str)
    (hwf : wellFormedValue cf = true)
    (hp : ¬ ((cf.function_type = ControlFunctionType.C1 ∨
        cf.function_type = ControlFunctionType.IndependentControlFunction) ∧
      byteLen s = 2 ∧ s.length ≠ 2)) :
    cfEqStr cf s = some (decide (s = render cf)) := by
  have hC1 : (cf.function_type = ControlFunctionType.C1 ∨
      cf.function_type = ControlFunctionType.IndependentControlFunction) →
      cfEqStr cf s = some (decide (s = render cf)) := by
    intro htype
    obtain ⟨v, hv, hva⟩ : ∃ v, cf.value = [v] ∧ v.toNat < 128 := by
      rw [wellFormedValue] at hwf
      rcases htype with ht | ht <;> rw [ht] at hwf <;>
        · rcases hval : cf.value with _ | ⟨v, _ | _⟩ <;> rw [hval] at hwf <;> simp at hwf
          exact ⟨v, rfl, hwf⟩
    have hrender : render cf = [chr 0x1B, v] := by
      rcases htype with ht | ht <;>
        simp [render, ht, hv, ESC, ControlFunction.new_c0]
    have hcfeq : cfEqStr cf s =
        (if byteLen s ≠ 2 then some false
          else if s.length = 2 then
            some (decide (slice s 0 1 = ESC.value) && decide (slice s 1 2 = cf.value))
          else none) := by
      rcases htype with ht | ht <;> simp only [cfEqStr, ht]
    by_cases hb : byteLen s = 2
    · by_cases hl : s.length = 2
      · obtain ⟨a, b, rfl⟩ := List.length_eq_two.mp hl
        rw [hcfeq, if_neg (by omega), if_pos hl]
        congr 1
        rw [Bool.eq_iff_iff]
        simp only [Bool.and_eq_true, decide_eq_true_eq]
        have hs01 : slice [a, b] 0 1 = [a] := rfl
        have hs12 : slice [a, b] 1 2 = [b] := rfl
        rw [hs01, hs12, hrender, hv]
        constructor
        · rintro ⟨h1, h2⟩
          simp only [ESC, ControlFunction.new_c0] at h1
          injection h1 with h1a
          injection h2 with h2a
          rw [h1a, h2a]
        · intro h
          injection h with ha hrest
          injection hrest with hb2
          subst ha
          subst hb2
          exact ⟨by simp [ESC, ControlFunction.new_c0], rfl⟩
      · exact absurd ⟨htype, hb, hl⟩ hp
    · rw [hcfeq, if_pos hb]
      have hne : ¬ (s = render cf) := by
        intro hs
        rw [hrender] at hs
        subst hs
        have h27 : (chr 0x1B).toNat = 27 := by decide
        simp [byteLen, utf8Len, h27, hva] at hb
      rw [decide_eq_false hne]
  rcases htype : cf.function_type with h | h | h | h
  · rw [cfEqStr, htype]
    simp only [render, htype]
    congr 1
    rw [decide_eq_decide]
    exact eq_comm
  · exact hC1 (Or.inl htype)
  · rw [cfEqStr, htype]
    simp only [render, htype]
    congr 1
    rw [decide_eq_decide]
    exact eq_comm
  · exact hC1 (Or.inr htype)

/-- Witness for C7 (amended): comparing BEL with the one-character string "x"
terminates and returns false. -/
theorem C7_amended_witness :
    cfEqStr BEL [chr 0x78] = some (decide ([chr 0x78] = render BEL)) :=
  C7_amended BEL [chr 0x78] (by decide) (by decide)

/-- Claim C3: `private_use` performs its checks in order and never panics; in
particular an empty identifier is claimed to yield `InvalidFunctionValueError`.
The code instead slices `&value[0..1]` on the empty identifier and panics, so
the claim marks a code bug.  This theorem evaluates the model at the failing
input and, for reference, at inputs exercising each of the four documented
checks, which do behave as claimed. -/
theorem C3_private_use_empty_panics :
    ControlFunction.private_use [] [] = PrivateUseResult.indexOutOfBounds ∧
    ControlFunction.private_use [chr 0xE4] [] =
      PrivateUseResult.err InvalidControlFunction.InvalidAsciiError ∧
    ControlFunction.private_use [chr 0x61, chr 0x62, chr 0x63] [] =
      PrivateUseResult.err InvalidControlFunction.InvalidFunctionValueError ∧
    ControlFunction.private_use [chr 0x78, chr 0x70] [] =
      PrivateUseResult.err InvalidControlFunction.InvalidIntermediateByteError ∧
    ControlFunction.private_use [chr 0x40] [] =
      PrivateUseResult.err InvalidControlFunction.InvalidPrivateUseError ∧
    ControlFunction.private_use [chr 0x70] [] =
      PrivateUseResult.ok (ControlFunction.new_sequence [chr 0x70] []) ∧
    ControlFunction.private_use [chr 0x20, chr 0x7F] [] =
      PrivateUseResult.ok (ControlFunction.new_sequence [chr 0x20, chr 0x7F] []) := by
  decide

/-- Claim C4: rendering a `ControlFunction` is total and produces, for `C0` the
identifier byte verbatim, for `C1` and independent control functions the ESCAPE
byte followed by the identifier byte, and for a `ControlSequence` ESCAPE then
05/11 then the parameters joined with single 03/11 separators (none trailing,
nothing for an empty list) then the identifier bytes verbatim. -/
theorem C4_render_shape (cf : ControlFunction) :
    (cf.function_type = ControlFunctionType.C0 → render cf = cf.value) ∧
    (cf.function_type = ControlFunctionType.C1 ∨
        cf.function_type = ControlFunctionType.IndependentControlFunction →
      render cf = chr 0x1B :: cf.value) ∧
    (cf.function_type = ControlFunctionType.ControlSequence →
      render cf =
        chr 0x1B :: chr 0x5B :: (List.intercalate [chr 0x3B] cf.parameters ++ cf.value)) := by
  obtain ⟨t, v, ps⟩ := cf
  cases t <;>
    simp [render, ESC, CSI, ControlFunction.new_c0, ControlFunction.new_c1,
      format_parameters, joinSemi_eq_intercalate]

/-- Witness for C4 at a concrete control sequence (the CUP(5, 13) example). -/
theorem C4_render_shape_witness :
    render (ControlFunction.new_sequence [chr 0x48] [[chr 0x35], [chr 0x31, chr 0x33]]) =
      chr 0x1B :: chr 0x5B ::
        (List.intercalate [chr 0x3B] [[chr 0x35], [chr 0x31, chr 0x33]] ++ [chr 0x48]) :=
  (C4_render_shape (ControlFunction.new_sequence [chr 0x48] [[chr 0x35], [chr 0x31, chr 0x33]])).2.2
    rfl

/-- Counterexample to claim C1: decoding ESCAPE, 05/11, followed by the
non-ASCII character U+00E4 yields a single text token holding the whole input;
no standalone `Function(ESC)` token is emitted on the aborted control-sequence
scan, contrary to the claim. -/
theorem C1_counterexample :
    decode [chr 0x1B, chr 0x5B, chr 0xE4] = [Token.String [chr 0x1B, chr 0x5B, chr 0xE4]] ∧
    decode [chr 0x1B, chr 0x5B, chr 0xE4] ≠
      [Token.ControlFunction ESC, Token.String [chr 0x5B, chr 0xE4]] := by
  decide

/-- Counterexample to claim C2: the fixed C1 constant CSI fails the round trip
(its encoding decodes to a text token), and the variadic builder `RM` applied
to the empty mode list fails it as well (the decoded parameter list is one
empty entry, not the empty list). -/
theorem C2_counterexample :
    decode (render CSI) = [Token.String [chr 0x1B, chr 0x5B]] ∧
    decode (render CSI) ≠ [Token.ControlFunction CSI] ∧
    decode (render (RM [])) =
      [Token.ControlFunction (ControlFunction.new_sequence [chr 0x6C] [[]])] ∧
    decode (render (RM [])) ≠ [Token.ControlFunction (RM [])] := by
  decide

/-- Counterexample to claim C6: decoding the empty input yields no tokens at
all, not one empty text token. -/
theorem C6_counterexample :
    decode ([] : Str) = [] ∧ decode ([] : Str) ≠ [Token.String []] := by
  decide

/-- Counterexample to claim C7: comparing the independent control function INT
with the one-character string U+00E4 (two UTF-8 bytes) panics in the source
(byte index 1 is not a character boundary), modelled as `none`; the claim says
the comparison terminates and returns false. -/
theorem C7_counterexample :
    cfEqStr INT [chr 0xE4] = none ∧ render INT ≠ [chr 0xE4] := by
  decide

end AnsiControlCodes
